import Mathlib

/-!
mackerel-agent-plugins: the MongoDB status extractor and the Linux text extractors

A shallow embedding of `mackerel-plugin-mongodb/lib/mongodb.go` (path resolver
`getFloatValue`, `parseStatus`, `GraphDefinition`, the tempfile basename of `Do`)
and of the text extractors exercised by `mackerel-plugin-linux/linux_test.go`.

Go's `float64` is embedded as an exact dyadic value (`Float64`), Go maps as
association lists read with `List.lookup` and written with `mapSet`, and
`strconv.ParseFloat` as a total function on character lists.
-/

namespace MackerelPlugins

/-! ## float64 -/

/-- IEEE-754 binary64 values: `finite neg mant exp` denotes `(-1)^neg * mant * 2^exp`,
kept canonical (`mant` odd, or `mant = 0` and `exp = 0`), plus the infinities and NaN. -/
inductive Float64 where
  | finite (neg : Bool) (mant : Nat) (exp : Int)
  | inf (neg : Bool)
  | nan
  deriving DecidableEq, Repr

/-- Divide out factors of two from the mantissa (at most `fuel` of them). -/
def stripTwos : Nat → Nat → Int → Nat × Int
  | 0, m, e => (m, e)
  | fuel + 1, m, e =>
    if m ≠ 0 ∧ m % 2 = 0 then stripTwos fuel (m / 2) (e + 1) else (m, e)

/-- Binary logarithm rounded down, `0` for `n < 2` (recursion bounded by `fuel`). -/
def log2Fuel : Nat → Nat → Nat
  | 0, _ => 0
  | fuel + 1, n => if 2 ≤ n then log2Fuel fuel (n / 2) + 1 else 0

/-- Binary logarithm rounded down: `floor (log2 n)` for `n > 0`. -/
def log2 (n : Nat) : Nat := log2Fuel n n

/-- Canonical form of `(-1)^neg * m * 2^e`. -/
def Float64.normalize (neg : Bool) (m : Nat) (e : Int) : Float64 :=
  if m = 0 then .finite neg 0 0
  else
    let r := stripTwos (log2 m + 1) m e
    .finite neg r.1 r.2

/-- Round the non-negative rational `n / d` (`d > 0`) to the nearest binary64 value,
ties to even, with sign `neg`; `none` when the rounded magnitude is `2^1024` or
more (overflow). Values below the normal range are rounded on the subnormal grid
`2^(-1074)`. -/
def Float64.roundRatio (neg : Bool) (n d : Nat) : Option Float64 :=
  if n = 0 then some (.finite neg 0 0)
  else
    let g : Int := (log2 n : Int) - (log2 d : Int)
    -- floor (log2 (n / d)) is `g` or `g - 1`
    let above : Bool :=
      if 0 ≤ g then decide (d * 2 ^ g.toNat ≤ n) else decide (d ≤ n * 2 ^ (-g).toNat)
    let e : Int := if above then g else g - 1
    let qe : Int := max (e - 52) (-1074)
    let num : Nat := if 0 ≤ qe then n else n * 2 ^ (-qe).toNat
    let den : Nat := if 0 ≤ qe then d * 2 ^ qe.toNat else d
    let q := num / den
    let r := num % den
    let m := if den < 2 * r ∨ (2 * r = den ∧ q % 2 = 1) then q + 1 else q
    if 971 < qe ∨ (qe = 971 ∧ 2 ^ 53 ≤ m) then none
    else some (Float64.normalize neg m qe)

/-- Conversion `float64(n)` of a natural number (round to nearest even);
every 64-bit integer is far below the overflow threshold. -/
def Float64.ofNat (n : Nat) : Float64 :=
  (Float64.roundRatio false n 1).getD (.inf false)

/-- Conversion `float64(n)` of an integer. -/
def Float64.ofInt (n : Int) : Float64 :=
  (Float64.roundRatio (decide (n < 0)) n.natAbs 1).getD (.inf (decide (n < 0)))

/-- The zero value of a `float64` variable. -/
def Float64.zero : Float64 := .finite false 0 0

/-- The natural number a `float64` holds, when it is a non-negative integer. -/
def Float64.natValue? : Float64 → Option Nat
  | .finite false m e => if 0 ≤ e then some (m * 2 ^ e.toNat) else none
  | _ => none

/-! ## strconv.ParseFloat -/

deriving instance DecidableEq for Except

/-- The two failures `strconv.ParseFloat` reports (`*strconv.NumError` with
`ErrSyntax` or `ErrRange`). -/
inductive NumError where
  | errSyntax
  | errRange
  deriving DecidableEq, Repr

/-- ASCII lower-casing of `A`..`Z` as in `commonPrefixLenIgnoreCase`. -/
def lowerAZ (c : Char) : Char :=
  if 'A' ≤ c ∧ c ≤ 'Z' then Char.ofNat (c.toNat + 32) else c

/-- Length of the longest common part at the start of `s` and `pat`,
ignoring the case of `s` (`pat` is lower case). -/
def commonLenIgnoreCase : List Char → List Char → Nat
  | c :: s, p :: pat => if lowerAZ c = p then commonLenIgnoreCase s pat + 1 else 0
  | _, _ => 0

/-- Port of `strconv.special`: recognises an optionally signed `inf`/`infinity`
and an unsigned `nan` at the start of `s`; returns the value and the number of
characters consumed. -/
def special (s : List Char) : Option (Float64 × Nat) :=
  let infCase (neg : Bool) (nsign : Nat) (t : List Char) : Option (Float64 × Nat) :=
    let n := commonLenIgnoreCase t "infinity".toList
    let n := if 3 < n ∧ n < 8 then 3 else n
    if n = 3 ∨ n = 8 then some (.inf neg, nsign + n) else none
  match s with
  | [] => none
  | c :: t =>
    if c = '+' then infCase false 1 t
    else if c = '-' then infCase true 1 t
    else if c = 'i' ∨ c = 'I' then infCase false 0 s
    else if c = 'n' ∨ c = 'N' then
      if commonLenIgnoreCase s "nan".toList = 3 then some (.nan, 3) else none
    else none

/-- Value of a digit character in the given base (10 or 16), if it is one. -/
def digitVal (hex : Bool) (c : Char) : Option Nat :=
  if '0' ≤ c ∧ c ≤ '9' then some (c.toNat - 48)
  else if hex ∧ 'a' ≤ c ∧ c ≤ 'f' then some (c.toNat - 87)
  else if hex ∧ 'A' ≤ c ∧ c ≤ 'F' then some (c.toNat - 55)
  else none

/-- State of the mantissa scan of `readFloat`. -/
structure MantScan where
  mant : Nat := 0
  fracDigits : Nat := 0
  sawdot : Bool := false
  sawdigits : Bool := false
  underscores : Bool := false
  deriving Repr

/-- The mantissa loop of `strconv.readFloat`: digits with at most one `.` and
any `_`; returns the scan state and the unread rest. The mantissa is kept exact
(Go keeps 19 digits and a truncation flag, and rounds correctly all the same). -/
def scanMant (hex : Bool) : List Char → MantScan → MantScan × List Char
  | [], st => (st, [])
  | c :: t, st =>
    if c = '_' then scanMant hex t { st with underscores := true }
    else if c = '.' then
      if st.sawdot then (st, c :: t) else scanMant hex t { st with sawdot := true }
    else
      match digitVal hex c with
      | some d =>
        scanMant hex t
          { st with sawdigits := true
                    mant := st.mant * (if hex then 16 else 10) + d
                    fracDigits := if st.sawdot then st.fracDigits + 1 else st.fracDigits }
      | none => (st, c :: t)

/-- The exponent digit loop of `readFloat` (decimal digits and `_`, the value
saturating once it reaches 10000); returns the value, whether an underscore was
seen and the unread rest. -/
def scanExp : List Char → Nat → Bool → Nat × Bool × List Char
  | [], e, u => (e, u, [])
  | c :: t, e, u =>
    if c = '_' then scanExp t e true
    else if '0' ≤ c ∧ c ≤ '9' then
      scanExp t (if e < 10000 then e * 10 + (c.toNat - 48) else e) u
    else (e, u, c :: t)

/-- Port of `strconv.underscoreOK`: underscores only between digits, or between
a base prefix and a digit. `saw` is 0 at the start, 1 after a digit or base
prefix, 2 after an underscore, 3 after anything else. -/
def underscoreOKLoop (hex : Bool) : List Char → Nat → Bool
  | [], saw => saw ≠ 2
  | c :: t, saw =>
    if (digitVal hex c).isSome then underscoreOKLoop hex t 1
    else if c = '_' then
      if saw ≠ 1 then false else underscoreOKLoop hex t 2
    else if saw = 2 then false
    else underscoreOKLoop hex t 3

/-- Port of `strconv.underscoreOK`: skip the optional sign, let a base prefix
(`0b`, `0o`, `0x`) count as a digit, then run the loop. -/
def underscoreOK (s : List Char) : Bool :=
  let t := match s with
    | c :: r => if c = '-' ∨ c = '+' then r else s
    | [] => s
  match t with
  | z :: b :: r =>
    if z = '0' ∧ (b = 'b' ∨ b = 'B' ∨ b = 'o' ∨ b = 'O' ∨ b = 'x' ∨ b = 'X') then
      underscoreOKLoop (b = 'x' ∨ b = 'X') r 1
    else underscoreOKLoop false t 0
  | _ => underscoreOKLoop false t 0

/-- What `readFloat` extracts: the number is
`(-1)^neg * mant * base^(-fracDigits) * (10 or 2)^exp`. -/
structure ReadFloat where
  neg : Bool
  hex : Bool
  mant : Nat
  fracDigits : Nat
  exp : Int
  rest : List Char
  deriving Repr

/-- The optional sign at the start of `readFloat`: whether it is `-`, and the rest. -/
def readSign : List Char → Bool × List Char
  | [] => (false, [])
  | c :: t => if c = '+' then (false, t) else if c = '-' then (true, t) else (false, c :: t)

/-- The base prefix test of `readFloat`,
`i+2 < len(s) && s[i] == '0' && lower(s[i+1]) == 'x'`: whether the number is
hexadecimal, and the rest. -/
def readBase : List Char → Bool × List Char
  | z :: x :: c :: t =>
    if z = '0' ∧ (x = 'x' ∨ x = 'X') then (true, c :: t) else (false, z :: x :: c :: t)
  | s => (false, s)

/-- The optional exponent of `readFloat`, read from the text after the mantissa:
`e` (decimal) or the mandatory `p` (hexadecimal), an optional sign and at least one
digit. Returns the exponent, whether an underscore was seen, and the unread rest;
`none` when the exponent is malformed or a hexadecimal number has none. -/
def readExp (hex : Bool) (underscores : Bool) :
    List Char → Option (Int × Bool × List Char)
  | [] => if hex then none else some (0, underscores, [])
  | c :: t =>
    if (hex ∧ (c = 'p' ∨ c = 'P')) ∨ (¬ hex ∧ (c = 'e' ∨ c = 'E')) then
      let signed := readSign t
      match signed.2 with
      | [] => none
      | d :: u =>
        if '0' ≤ d ∧ d ≤ '9' then
          let r := scanExp (d :: u) 0 underscores
          some (if signed.1 then -(r.1 : Int) else (r.1 : Int), r.2.1, r.2.2)
        else none
    else if hex then none
    else some (0, underscores, c :: t)

/-- Port of `strconv.readFloat`: optional sign, optional `0x`, mantissa,
optional exponent; `none` when the text does not start with a number, or when it
holds underscores that `underscoreOK` rejects. -/
def readFloat (s : List Char) : Option ReadFloat :=
  let signed := readSign s
  let based := readBase signed.2
  let scanned := scanMant based.1 based.2 {}
  if ¬ scanned.1.sawdigits then none
  else
    match readExp based.1 scanned.1.underscores scanned.2 with
    | none => none
    | some (exp, us, rest) =>
      if us ∧ ¬ underscoreOK (s.take (s.length - rest.length)) then none
      else some ⟨signed.1, based.1, scanned.1.mant, scanned.1.fracDigits, exp, rest⟩

/-- The correctly rounded binary64 value of what `readFloat` extracted, or
`none` on overflow. -/
def ReadFloat.value (r : ReadFloat) : Option Float64 :=
  let e : Int :=
    if r.hex then r.exp - 4 * (r.fracDigits : Int) else r.exp - (r.fracDigits : Int)
  let b : Nat := if r.hex then 2 else 10
  if 0 ≤ e then Float64.roundRatio r.neg (r.mant * b ^ e.toNat) 1
  else Float64.roundRatio r.neg r.mant (b ^ (-e).toNat)

/-- Model of `strconv.ParseFloat(s, 64)` on the characters of `s`: the whole text
must be one number (or `inf`, `infinity`, `nan`); the result is the nearest
binary64 value, and a magnitude that rounds past the largest one is `ErrRange`. -/
def parseFloatChars (s : List Char) : Except NumError Float64 :=
  match special s with
  | some (f, n) => if n = s.length then .ok f else .error .errSyntax
  | none =>
    match readFloat s with
    | none => .error .errSyntax
    | some r =>
      if r.rest ≠ [] then .error .errSyntax
      else
        match r.value with
        | some f => .ok f
        | none => .error .errRange

/-- Model of `strconv.ParseFloat(s, 64)`. -/
def ParseFloat (s : String) : Except NumError Float64 :=
  parseFloatChars s.toList

/-- Whether the character is a decimal digit. -/
def isDigit (c : Char) : Bool := decide ('0' ≤ c ∧ c ≤ '9')

/-- The natural number that a run of decimal digits denotes, continuing from `acc`. -/
def digitsValueFrom : List Char → Nat → Nat
  | [], acc => acc
  | c :: t, acc => digitsValueFrom t (acc * 10 + (c.toNat - 48))

/-- The natural number that a run of decimal digits denotes. -/
def digitsValue (ds : List Char) : Nat := digitsValueFrom ds 0

/-- The decimal digits of `n`, most significant first (`fuel > n` is enough). -/
def natDigits : Nat → Nat → List Char
  | 0, _ => []
  | fuel + 1, n =>
    if n < 10 then [Char.ofNat (48 + n)]
    else natDigits fuel (n / 10) ++ [Char.ofNat (48 + n % 10)]

/-- What `fmt.Sprint` prints for an integer: `-` for a negative number, then the
decimal digits. -/
def formatInt (n : Int) : String :=
  String.mk (if n < 0 then '-' :: natDigits (n.natAbs + 1) n.natAbs
    else natDigits (n.natAbs + 1) n.natAbs)

/-! ## The status document and `getFloatValue` (mongodb.go) -/

/-- The dynamic values (`interface{}`) found in a decoded `serverStatus` reply.
`doc` is a nested `bson.M`; every other constructor is a value that the type
switch of `getFloatValue` sends to its `default` branch. `other` stands for a
value of any further Go type (`time.Time`, `bson.ObjectId`, ...) and carries the
text `fmt.Sprint` prints for it. -/
inductive Value where
  | int (n : Int)
  | double (f : Float64)
  | str (s : String)
  | bool (b : Bool)
  | null
  | arr (items : List Value)
  | other (sprint : String)
  | doc (fields : List (String × Value))

/-- The Go type `bson.M` (`map[string]interface{}`): an association list read with
`List.lookup`. -/
abbrev Doc := List (String × Value)

/-- The errors `getFloatValue` returns. `keyNotFound k` is `KeyNotFound(k)`,
`hashError k` is `fmt.Errorf("Cannot handle as a hash for %s", k)` and
`numError e` is the `*strconv.NumError` of `strconv.ParseFloat`. -/
inductive Err where
  | keyNotFound (k : String)
  | hashError (k : String)
  | numError (e : NumError)
  deriving DecidableEq, Repr

/-- The type assertion `err.(KeyNotFound)`. -/
def Err.isKeyNotFound : Err → Bool
  | .keyNotFound _ => true
  | _ => false

/-- The expression `strconv.ParseFloat(fmt.Sprint(v), 64)` of `getFloatValue`.
`fmt.Sprint` prints an integer in decimal, a string as it is, a boolean as `true` or
`false` and nil as `<nil>`. It prints a `float64` in the shortest form that reads
back as the same value, so a `float64` leaf comes back as itself; and it prints a
slice as `[...]` and a map as `map[...]`, which are not numbers. -/
def parseFloatSprint : Value → Except NumError Float64
  | .int n => ParseFloat (formatInt n)
  | .double f => .ok f
  | .str s => ParseFloat s
  | .other sprint => ParseFloat sprint
  | .bool b => ParseFloat (if b then "true" else "false")
  | .null => ParseFloat "<nil>"
  | .arr _ => .error .errSyntax
  | .doc _ => .error .errSyntax

/-- The loop `for i, k := range keys` of `getFloatValue`, on the keys still to
visit; `sm` and `val` are the loop variables, and `i+1 < len(keys)` holds exactly
when keys remain after `k`. -/
def getFloatValueLoop (sm : Doc) (val : Float64) : List String → Except Err Float64
  | [] => .ok val
  | k :: rest =>
    match sm.lookup k with
    | none => .error (.keyNotFound k)
    | some v =>
      if rest ≠ [] then
        match v with
        | .doc m => getFloatValueLoop m val rest
        | _ => .error (.hashError k)
      else
        match parseFloatSprint v with
        | .error e => .error (.numError e)
        | .ok f => getFloatValueLoop sm f rest

/-- Translation of `getFloatValue(s map[string]interface{}, keys []string)`. -/
def getFloatValue (s : Doc) (keys : List String) : Except Err Float64 :=
  getFloatValueLoop s Float64.zero keys

/-- The map reached from `s` by following `keys`, each of which must be present
and hold a nested `bson.M`. -/
def resolveMaps (s : Doc) : List String → Option Doc
  | [] => some s
  | k :: ks =>
    match s.lookup k with
    | some (.doc m) => resolveMaps m ks
    | _ => none

/-- The `float64` a numeric leaf holds: the conversion of an integer leaf (a 64-bit
integer), or a `float64` leaf itself. -/
def Value.asNumber : Value → Option Float64
  | .int n => if -2 ^ 63 ≤ n ∧ n < 2 ^ 63 then some (Float64.ofInt n) else none
  | .double f => some f
  | _ => none

/-- Whether the value is a nested `bson.M`. -/
def Value.isDoc : Value → Bool
  | .doc _ => true
  | _ => false

/-! ## Go maps as association lists -/

/-- The assignment `m[k] = v` on a Go map: replace the binding of `k`, or add one. -/
def mapSet {α : Type} (k : String) (v : α) : List (String × α) → List (String × α)
  | [] => [(k, v)]
  | (k', v') :: rest =>
    if k' = k then (k, v) :: rest else (k', v') :: mapSet k v rest

/-- A flat mapping from metric name to value (`map[string]float64`, and the
`map[string]interface{}` of `float64` values that `parseStatus` fills). -/
abbrev Sample := List (String × Float64)

/-! ## The static tables of mongodb.go -/

/-- The struct `mp.Metrics` of go-mackerel-plugin-helper (fields as declared there;
a field left out of a literal has its zero value). -/
structure Metrics where
  Name : String
  Label : String
  Diff : Bool := false
  Typ : String := ""
  Stacked : Bool := false
  Scale : Float64 := Float64.zero
  deriving DecidableEq, Repr

/-- The struct `mp.Graphs` of go-mackerel-plugin-helper. -/
structure Graphs where
  Label : String
  Unit : String
  Metrics : List Metrics
  deriving DecidableEq, Repr

/-- The table `graphdef`, in source order. -/
def graphdef : List (String × Graphs) :=
  [ ("mongodb.background_flushing",
      { Label := "MongoDB Command", Unit := "float",
        Metrics := [
          { Name := "duration_ms", Label := "Duration in ms", Diff := true, Typ := "uint64" } ] }),
    ("mongodb.connections",
      { Label := "MongoDB Connections", Unit := "integer",
        Metrics := [
          { Name := "connections_current", Label := "current" },
          { Name := "connections_available", Label := "available" } ] }),
    ("mongodb.index_counters.btree",
      { Label := "MongoDB Index Counters Btree", Unit := "integer",
        Metrics := [
          { Name := "index_hits", Label := "hits", Diff := true, Typ := "uint64" },
          { Name := "index_btree_hits", Label := "hits", Diff := true, Typ := "uint64" } ] }),
    ("mongodb.opcounters",
      { Label := "MongoDB opcounters", Unit := "integer",
        Metrics := [
          { Name := "opcounters_insert", Label := "Insert", Diff := true, Typ := "uint64" },
          { Name := "opcounters_query", Label := "Query", Diff := true, Typ := "uint64" },
          { Name := "opcounters_update", Label := "Update", Diff := true, Typ := "uint64" },
          { Name := "opcounters_delete", Label := "Delete", Diff := true, Typ := "uint64" },
          { Name := "opcounters_getmore", Label := "Getmore", Diff := true, Typ := "uint64" },
          { Name := "opcounters_command", Label := "Command", Diff := true, Typ := "uint64" } ] }),
    ("mongodb.globallock",
      { Label := "MongoDB GlobalLock operations", Unit := "integer",
        Metrics := [
          { Name := "globallock_client_readers", Label := "ClientReaders", Diff := false, Typ := "uint64" },
          { Name := "globallock_client_writers", Label := "ClientWriters", Diff := false, Typ := "uint64" },
          { Name := "globallock_queue_readers", Label := "QueueReaders", Diff := false, Typ := "uint64" },
          { Name := "globallock_queue_writers", Label := "QueueWriters", Diff := false, Typ := "uint64" } ] }),
    ("mongodb.dur_commits",
      { Label := "MongoDB MMAPv1 journal transactions", Unit := "integer",
        Metrics := [
          { Name := "dur_commits", Label := "Commits", Diff := false, Typ := "uint64" } ] }),
    ("mongodb.dur_journaled",
      { Label := "MongoDB MMAPv1 journal size", Unit := "bytes",
        Metrics := [
          { Name := "dur_journaled", Label := "JournalSize", Diff := false, Typ := "uint64",
            Scale := Float64.ofNat (1024 * 1024) } ] }),
    ("mongodb.memory",
      { Label := "MongoDB Memory", Unit := "bytes",
        Metrics := [
          { Name := "mem_virtual", Label := "Virtual", Diff := false, Typ := "uint64",
            Scale := Float64.ofNat (1024 * 1024) },
          { Name := "mem_resident", Label := "Resident", Diff := false, Typ := "uint64",
            Scale := Float64.ofNat (1024 * 1024) },
          { Name := "mem_mapped", Label := "Mapped", Diff := false, Typ := "uint64",
            Scale := Float64.ofNat (1024 * 1024) } ] }),
    ("mongodb.page_faults",
      { Label := "MongoDB Page Faults", Unit := "integer",
        Metrics := [
          { Name := "page_faults", Label := "Count", Diff := false, Typ := "uint64" } ] }),
    ("mongodb.asserts",
      { Label := "MongoDB Asserts", Unit := "integer",
        Metrics := [
          { Name := "asserts_msg", Label := "Msg", Diff := false, Typ := "uint64" },
          { Name := "asserts_warning", Label := "Warning", Diff := false, Typ := "uint64" },
          { Name := "asserts_regular", Label := "Regular", Diff := false, Typ := "uint64" },
          { Name := "asserts_user", Label := "User", Diff := false, Typ := "uint64" } ] }),
    ("mongodb.wiredtiger_transactions",
      { Label := "MongoDB WiredTiger Transaction Tickets", Unit := "integer",
        Metrics := [
          { Name := "wiredtiger_read_out", Label := "ReadOut", Diff := false, Typ := "uint64" },
          { Name := "wiredtiger_write_out", Label := "WriteOut", Diff := false, Typ := "uint64" },
          { Name := "wiredtiger_read_avl", Label := "ReadAvailable", Diff := false, Typ := "uint64" },
          { Name := "wiredtiger_write_avl", Label := "WriteAvailable", Diff := false, Typ := "uint64" } ] }),
    ("mongodb.wiredtiger_cache",
      { Label := "MongoDB WiredTiger Caches", Unit := "bytes",
        Metrics := [
          { Name := "wiredtiger_cache_bytes", Label := "Current", Diff := false, Typ := "uint64" },
          { Name := "wiredtiger_cache_maximum", Label := "Max", Diff := false, Typ := "uint64" },
          { Name := "wiredtiger_cache_tracked", Label := "Tracked", Diff := false, Typ := "uint64" },
          { Name := "wiredtiger_cache_unmodified", Label := "Unmodified", Diff := false, Typ := "uint64" },
          { Name := "wiredtiger_cache_modified", Label := "Modified", Diff := false, Typ := "uint64" } ] }) ]

/-- The table `metricPlace`, in source order. -/
def metricPlace : List (String × List String) :=
  [ ("duration_ms", ["backgroundFlushing", "total_ms"]),
    ("dur_commits", ["dur", "commits"]),
    ("dur_journaled", ["dur", "journaledMB"]),
    ("connections_current", ["connections", "current"]),
    ("connections_available", ["connections", "available"]),
    ("index_btree_hits", ["indexCounters", "btree", "hits"]),
    ("index_hits", ["indexCounters", "hits"]),
    ("opcounters_insert", ["opcounters", "insert"]),
    ("opcounters_query", ["opcounters", "query"]),
    ("opcounters_update", ["opcounters", "update"]),
    ("opcounters_delete", ["opcounters", "delete"]),
    ("opcounters_getmore", ["opcounters", "getmore"]),
    ("opcounters_command", ["opcounters", "command"]),
    ("globallock_client_readers", ["globalLock", "activeClients", "readers"]),
    ("globallock_client_writers", ["globalLock", "activeClients", "writers"]),
    ("globallock_queue_readers", ["globalLock", "currentQueue", "readers"]),
    ("globallock_queue_writers", ["globalLock", "currentQueue", "writers"]),
    ("mem_virtual", ["mem", "virtual"]),
    ("mem_resident", ["mem", "resident"]),
    ("mem_mapped", ["mem", "mapped"]),
    ("page_faults", ["extra_info", "page_faults"]),
    ("asserts_msg", ["asserts", "msg"]),
    ("asserts_warning", ["asserts", "warning"]),
    ("asserts_regular", ["asserts", "regular"]),
    ("asserts_user", ["asserts", "user"]),
    ("wiredtiger_read_out", ["wiredTiger", "concurrentTransactions", "read", "out"]),
    ("wiredtiger_read_avl", ["wiredTiger", "concurrentTransactions", "read", "available"]),
    ("wiredtiger_write_out", ["wiredTiger", "concurrentTransactions", "write", "out"]),
    ("wiredtiger_write_avl", ["wiredTiger", "concurrentTransactions", "write", "available"]),
    ("wiredtiger_cache_bytes", ["wiredTiger", "cache", "bytes currently in the cache"]),
    ("wiredtiger_cache_maximum", ["wiredTiger", "cache", "maximum bytes configured"]),
    ("wiredtiger_cache_tracked", ["wiredTiger", "cache", "tracked dirty bytes in the cache"]),
    ("wiredtiger_cache_unmodified", ["wiredTiger", "cache", "unmodified pages evicted"]),
    ("wiredtiger_cache_modified", ["wiredTiger", "cache", "modified pages evicted"]) ]

/-- The index expression `metricPlace[name]`: the nil slice when `name` has no entry. -/
def metricPlaceAt (name : String) : List String :=
  (metricPlace.lookup name).getD []

/-! ## `parseStatus`, `GraphDefinition` and `Do` (mongodb.go) -/

/-- The two severities `parseStatus` logs with: `logger.Debugf` and
`logger.Warningf`. -/
inductive LogLevel where
  | debug
  | warning
  deriving DecidableEq, Repr

/-- One line written to the logger by `parseStatus`: the severity, and the path and
error that fill `"Cannot fetch metric %s: %s"`. -/
structure LogEntry where
  level : LogLevel
  path : List String
  err : Err
  deriving DecidableEq, Repr

/-- One iteration of `for k, v := range metricPlace` in `parseStatus`, on the map
`stat` and the lines logged so far. A `KeyNotFound` is logged with `Debugf` and the
loop continues; any other error is logged with `Warningf`; neither stores a value. -/
def parseStatusStep (serverStatus : Doc) (acc : Sample × List LogEntry)
    (kv : String × List String) : Sample × List LogEntry :=
  match getFloatValue serverStatus kv.2 with
  | .error err =>
    if err.isKeyNotFound then (acc.1, acc.2 ++ [⟨.debug, kv.2, err⟩])
    else (acc.1, acc.2 ++ [⟨.warning, kv.2, err⟩])
  | .ok val => (mapSet kv.1 val acc.1, acc.2)

/-- The loop of `parseStatus` over `metricPlace`, in source order (Go leaves the
order open; the keys are distinct, so the resulting map does not depend on it):
the map `stat` and the lines logged. -/
def parseStatusLoop (serverStatus : Doc) : Sample × List LogEntry :=
  metricPlace.foldl (parseStatusStep serverStatus) ([], [])

/-- Translation of `MongoDBPlugin.parseStatus`; the result is `(stat, nil)` on every
path. -/
def parseStatus (serverStatus : Doc) : Except Err Sample :=
  .ok (parseStatusLoop serverStatus).1

/-- The inner loop of `GraphDefinition`: `metrics = append(metrics, m)` for each
metric of the group whose path resolves without error. -/
def resolvableMetrics (serverStatus : Doc) (ms : List Metrics) : List Metrics :=
  ms.foldl (fun metrics m =>
    match getFloatValue serverStatus (metricPlaceAt m.Name) with
    | .ok _ => metrics ++ [m]
    | .error _ => metrics) []

/-- One iteration of `for k, v := range graphdef` in `GraphDefinition`. -/
def graphDefinitionStep (serverStatus : Doc) (g : List (String × Graphs))
    (kv : String × Graphs) : List (String × Graphs) :=
  let metrics := resolvableMetrics serverStatus kv.2.Metrics
  if metrics.length > 0 then mapSet kv.1 { kv.2 with Metrics := metrics } g else g

/-- Translation of `MongoDBPlugin.GraphDefinition`. The argument is what
`m.fetchStatus()` returned (the network round trip is outside the embedding): an
error, or the status document. -/
def GraphDefinition (fetched : Except String Doc) : List (String × Graphs) :=
  match fetched with
  | .error _ => graphdef
  | .ok serverStatus => graphdef.foldl (graphDefinitionStep serverStatus) []

/-- The basename `fmt.Sprintf("mackerel-plugin-mongodb-%s-%s", *optHost, *optPort)`
that `Do` passes to `SetTempfileByBasename`. -/
def tempfileBasename (optHost optPort : String) : String :=
  "mackerel-plugin-mongodb-" ++ optHost ++ "-" ++ optPort

/-- The struct `MongoDBPlugin`. -/
structure MongoDBPlugin where
  URL : String
  Username : String
  Password : String
  Verbose : Bool
  deriving DecidableEq, Repr

/-- Where the helper keeps the persisted state: `helper.Tempfile` set to a path, or
the file the helper derives from a basename (`SetTempfileByBasename`). -/
inductive TempfileChoice where
  | path (tempfile : String)
  | byBasename (basename : String)
  deriving DecidableEq, Repr

/-- The helper that `Do` builds and runs: the plugin and its tempfile setting. -/
structure Helper where
  plugin : MongoDBPlugin
  tempfile : TempfileChoice
  deriving DecidableEq, Repr

/-- Translation of `Do`, up to the call `helper.Run()` (which belongs to
go-mackerel-plugin-helper); the arguments are the parsed command-line flags. -/
def Do (optHost optPort optUser optPass : String) (optVerbose : Bool)
    (optTempfile : String) : Helper :=
  { plugin :=
      { Verbose := optVerbose
        URL := optHost ++ ":" ++ optPort
        Username := optUser
        Password := optPass }
    tempfile :=
      if optTempfile ≠ "" then .path optTempfile
      else .byBasename (tempfileBasename optHost optPort) }

/-! ## Specification-side readings of the two catalog walks -/

/-- The value `parseStatus` stores for one table entry, if any. -/
def resolved (serverStatus : Doc) (path : List String) : Option Float64 :=
  match getFloatValue serverStatus path with
  | .ok val => some val
  | .error _ => none

/-- Whether a catalog metric resolves against the document: `getFloatValue` on its
`metricPlace` path returns no error. -/
def resolves (serverStatus : Doc) (m : Metrics) : Bool :=
  match getFloatValue serverStatus (metricPlaceAt m.Name) with
  | .ok _ => true
  | .error _ => false

/-- The group `GraphDefinition` keeps for a catalog group, if any. -/
def retained (serverStatus : Doc) (v : Graphs) : Option Graphs :=
  if v.Metrics.filter (resolves serverStatus) ≠ [] then
    some { v with Metrics := v.Metrics.filter (resolves serverStatus) }
  else none

/-! ## Readings of the catalog -/

/-- The tag of a metric: `gauge` (the value is reported as it is) or `counter` (the
rate since the last sample is reported). -/
inductive MetricKind where
  | gauge
  | counter
  deriving DecidableEq, Repr

/-- The kind a catalog entry declares: a metric with `Diff: true` is a counter. -/
def Metrics.kind (m : Metrics) : MetricKind :=
  if m.Diff then .counter else .gauge

/-- Whether the metric name starts with `opcounters_`. -/
def isOpcounter (name : String) : Bool :=
  "opcounters_".toList.isPrefixOf name.toList

/-- Every metric of the catalog, group after group. -/
def catalogMetrics : List Metrics :=
  graphdef.flatMap (fun p => p.2.Metrics)

/-- The metric names listed across the groups of a graph definition. -/
def listedNames (g : List (String × Graphs)) : List String :=
  g.flatMap (fun p => p.2.Metrics.map (fun m => m.Name))

/-- The number of catalog groups that list a metric of the given name. -/
def groupsListing (name : String) : Nat :=
  (graphdef.filter (fun p => p.2.Metrics.any (fun m => decide (m.Name = name)))).length

/-! ## The text extractors of mackerel-plugin-linux

The functions `parseProcStat`, `parseProcDiskstats` and `parseSs` are called by
`linux_test.go`; the file that defines them is missing. Each is modelled from the
specification (section 4.1, RawExtractor) and from the fixture of its test. -/

/-- The failure of an extractor whose input cannot be read as a document at all
(`ParseError` of the specification), naming the offending text. -/
structure ParseError where
  text : String
  deriving DecidableEq, Repr

/-- Modelled from the spec: the newline-separated records of a text, as
`strings.Split(s, "\n")` gives them (the source of the extractors is missing). -/
def splitLines : List Char → List (List Char)
  | [] => [[]]
  | c :: cs =>
    if c = '\n' then [] :: splitLines cs
    else
      match splitLines cs with
      | l :: ls => (c :: l) :: ls
      | [] => [[c]]

/-- Modelled from the spec: the white space that separates tokens, as `strings.Fields`
sees it (`unicode.IsSpace`); the source of the extractors is missing. -/
def isSpace (c : Char) : Bool :=
  let n := c.toNat
  n = 32 ∨ (9 ≤ n ∧ n ≤ 13) ∨ n = 0x85 ∨ n = 0xA0 ∨ n = 0x1680 ∨
    (0x2000 ≤ n ∧ n ≤ 0x200A) ∨ n = 0x2028 ∨ n = 0x2029 ∨ n = 0x202F ∨
    n = 0x205F ∨ n = 0x3000

/-- Modelled from the spec: the loop of `fields` (the source of the extractors is missing);
`cur` holds the characters of the token being read, last character first. -/
def fieldsAux : List Char → List Char → List (List Char)
  | [], cur => if cur.isEmpty then [] else [cur.reverse]
  | c :: cs, cur =>
    if isSpace c then
      if cur.isEmpty then fieldsAux cs [] else cur.reverse :: fieldsAux cs []
    else fieldsAux cs (c :: cur)

/-- Modelled from the spec: the white-space separated tokens of a line, as
`strings.Fields(line)` gives them (the source of the extractors is missing). -/
def fields (line : List Char) : List String :=
  (fieldsAux line []).map String.mk

/-- Carry out a list of assignments `stat[name] = value`, first to last. -/
def applyWrites (writes : List (String × Float64)) (stat : Sample) : Sample :=
  writes.foldl (fun st w => mapSet w.1 w.2 st) stat

/-- Modelled from the spec: the counters `parseProcStat` knows (its source is
missing), each with the key that starts its line and the metric name it is stored
under: `intr`, `ctxt`, `processes` and the names asserted by `TestParseProcStat`. -/
def procStatNames : List (String × String) :=
  [("intr", "interrupts"), ("ctxt", "context_switches"), ("processes", "forks")]

/-- Modelled from the spec: the assignment one line of a flat counter file gives rise
to (`parseProcStat`, whose source is missing). The line is split on white space, the
first token is the key and the token after it the value, any further tokens are
discarded; a line with an unrecognised key, without a value, or with a malformed
number is skipped. -/
def procStatLineWrites (line : List Char) : List (String × Float64) :=
  match fields line with
  | key :: tok :: _ =>
    match procStatNames.lookup key with
    | none => []
    | some name =>
      match ParseFloat tok with
      | .ok v => [(name, v)]
      | .error _ => []
  | _ => []

/-- Modelled from the spec: what `parseProcStat` (whose source is missing) does with
one line of the text: carry out the assignment the line gives rise to, if any. -/
def parseProcStatLine (stat : Sample) (line : List Char) : Sample :=
  applyWrites (procStatLineWrites line) stat

/-- Modelled from the spec: `parseProcStat(str, &stat)`, whose source is missing: the
lines of the text are handled one after the other; the result is the map after the
call, and text input never fails. -/
def parseProcStat (str : String) (stat : Sample) : Except ParseError Sample :=
  .ok ((splitLines str.toList).foldl parseProcStatLine stat)

/-- Modelled from the spec: every assignment a flat counter file gives rise to, in
line order (`parseProcStat`, whose source is missing). -/
def procStatWrites (str : String) : List (String × Float64) :=
  (splitLines str.toList).flatMap procStatLineWrites

/-- Modelled from the spec: the metric kinds of the device table
(`parseProcDiskstats`, whose source is missing), each with the start of its metric
name and the zero-based position of its column, the columns that hold the values
asserted by `TestParseProcDiskstats`. -/
def diskstatsColumns : List (String × Nat) :=
  [("iotime_", 12), ("iotime_weighted_", 13), ("tsreading_", 6), ("tswriting_", 10)]

/-- Modelled from the spec: the assignments one row of the device table gives rise to
(`parseProcDiskstats`, whose source is missing). A row with the full set of
columns (14 tokens) is keyed by its device-name column, the token at position 2;
each metric kind reads its column and is stored under its name followed by the
device name. A shorter row is skipped, and so is a metric whose column is not a
number. -/
def diskstatsRowWrites (line : List Char) : List (String × Float64) :=
  let fs := fields line
  if fs.length < 14 then []
  else
    match fs[2]? with
    | none => []
    | some device =>
      diskstatsColumns.flatMap (fun col =>
        match fs[col.2]?.map ParseFloat with
        | some (.ok v) => [(col.1 ++ device, v)]
        | _ => [])

/-- Modelled from the spec: what `parseProcDiskstats` (whose source is missing) does
with one row of the table: carry out the assignments the row gives rise to. -/
def parseProcDiskstatsRow (stat : Sample) (line : List Char) : Sample :=
  applyWrites (diskstatsRowWrites line) stat

/-- Modelled from the spec: `parseProcDiskstats(str, &stat)`, whose source is
missing: the rows of the table are handled one after the other; the result is the
map after the call, and text input never fails. -/
def parseProcDiskstats (str : String) (stat : Sample) : Except ParseError Sample :=
  .ok ((splitLines str.toList).foldl parseProcDiskstatsRow stat)

/-- Modelled from the spec: every assignment a device table gives rise to, in row
order (`parseProcDiskstats`, whose source is missing). -/
def diskstatsWrites (str : String) : List (String × Float64) :=
  (splitLines str.toList).flatMap diskstatsRowWrites

/-- Modelled from the spec: the leading label of a row, if the row has any token
(`parseSs`, whose source is missing). -/
def rowLabel (row : List Char) : Option String :=
  (fields row).head?

/-- Modelled from the spec: count one more occurrence of `label` (`parseSs`, whose
source is missing). -/
def bump (counts : List (String × Nat)) (label : String) : List (String × Nat) :=
  mapSet label ((counts.lookup label).getD 0 + 1) counts

/-- Modelled from the spec: the occurrence count of each distinct leading label
across the rows, in order of first appearance (`parseSs`, whose source is missing);
a row without a token has no label and counts for nothing. -/
def tally (rows : List (List Char)) : List (String × Nat) :=
  rows.foldl (fun counts row =>
    match rowLabel row with
    | some label => bump counts label
    | none => counts) []

/-- Modelled from the spec: the connection rows of an `ss` output, the lines after
the header line (`parseSs`, whose source is missing). -/
def ssRows (str : String) : List (List Char) :=
  (splitLines str.toList).tail

/-- Modelled from the spec: `parseSs(str, &stat)`, whose source is missing; one entry
per distinct leading label holding its occurrence count; the result is the map after
the call, and text input never fails. -/
def parseSs (str : String) (stat : Sample) : Except ParseError Sample :=
  .ok (applyWrites ((tally (ssRows str)).map (fun p => (p.1, Float64.ofNat p.2))) stat)

/-- The number of rows that begin with `label`. -/
def countLabel (label : String) (rows : List (List Char)) : Nat :=
  (rows.filter (fun row => decide (rowLabel row = some label))).length

/-! ## The fixtures of linux_test.go -/

/-- The stub of `TestParseProcStat`. -/
def procStatStub : String :=
    "intr 614818624 122 8 0 0 1 0 0 0 1 0 0 0 123 0 0 0 0 0 0 0 0 0 0 0 4846888 0 44650320 25" ++
    "3 0 0 0 0 0 0 0 0 0 0 0 0 0 0 0 0 0 0 0 0 0 0 0 0 0 0 0 0 0 0 0 0 0 0 0 0 0 0 0 0 0 0 0 " ++
    "0 0 0 0 0 0 0 0 0 0 0 0 0 0 0 0 0 0 0 0 0 0 0 0 0 0 0 0 0 0 0 0 0 0 0 0 0 0 0 0 0 0 0 0 " ++
    "0 0 0 0 0 0 0 0 0 0 0 0 0 0 0 0 0 0 0 0 0 0 0 0 0 0 0 0 0 0 0 0 0 0 0 0 0 0 0 0 0 0 0 0 " ++
    "0 0 0 0 0 0 0 0 0 0 0 0 0 0 0 0 0 0 0 0 0 0 0 0 0 0 0 0 0 0 0 0 0 0 0 0 0 0 0 0 0 0 0 0 " ++
    "0 0 0 0 0 0 0 0 0 0 0 0 0 0 0 0 0 0 0 0 0 0 0 0 0 0 0 0 0 0 0 0 0 0 0 0 0 0 0 0 0 0 0 0 " ++
    "0 0 0 0 0 0 0 0 0 0 0 0 0 0 0 0 0 0 0 0 0 0 0 0 0 0 0 0 0 0 0 0 0 0 0 0 0 0 0 0 0 0 0 0 " ++
    "0 0 0 0 0 0 0 0 0 0 0 0 0 0 0 0 0 0 0 0 0 0 0 0 0 0 0 0 0 0 0 0 0 0 0 0 0 0 0 0 0 0 0 0 " ++
    "0 0 0 0 0 0 0 0 0 0 0 0 0 0 0 0 0 0 0 0 0 0 0 0 0 0 0 0 0 0 0 0 0 0 0 0 0 0 0 0 0 0 0 0 " ++
    "0 0 0 0 0 0 0 0 0 0 0 0 0 0 0 0 0 0 0 0 0 0 0 0 0 0 0 0 0 0 0 0 0 0 0 0 0 0 0 0 0 0 0 0 " ++
    "0\n" ++
    " ctxt 879305394\n" ++
    " btime 1409212617\n" ++
    " processes 1959410"

/-- The stub of `TestParseProcDiskstats`. -/
def procDiskstatsStub : String :=
    "   1       0 ram0 0 0 0 0 0 0 0 0 0 0 0\n" ++
    "   8       0 sda 324351 303093 35032074 12441261 4456146 5387174 68639686 423711425 0 23" ++
    "865772 436201338\n" ++
    "   8       1 sda1 678 405 10970 4696 276 22946 46462 1217036 0 53528 1221732\n" ++
    " 253       2 dm-2 83 0 664 94 0 0 0 0 0 94 94"

/-- The stub of `TestParseSs`. -/
def ssStub : String :=
    "State      Recv-Q Send-Q                       Local Address:Port                       " ++
    "  Peer Address:Port \n" ++
    "LISTEN     0      128                                     :::45103                      " ++
    "            :::*     \n" ++
    "LISTEN     0      128                                     :::111                        " ++
    "            :::* \n" ++
    "TIME-WAIT  0      0                         ::ffff:127.0.0.1:80                       ::" ++
    "ffff:127.0.0.1:50082 \n" ++
    "ESTAB      0      0                              10.0.25.101:60826                      " ++
    "   10.0.25.104:5672  "

/-! ## `parseWho` and `parseProcVmstat` (mackerel-plugin-linux)

Both are called by `linux_test.go`; the file that defines them is missing. Each is
modelled from the specification (section 4.1, RawExtractor) and from the stubs of
its tests. -/

/-- Modelled from the spec: the number of non-empty lines of a session-line text
(`parseWho`, whose source is missing). -/
def countNonEmptyLines (str : String) : Nat :=
  ((splitLines str.toList).filter (fun line => !line.isEmpty)).length

/-- Modelled from the spec: `parseWho(str, &stat)`, whose source is missing: the
non-empty lines are counted into the single metric `users`; the result is the map
after the call, and text input never fails. -/
def parseWho (str : String) (stat : Sample) : Except ParseError Sample :=
  .ok (mapSet "users" (Float64.ofNat (countNonEmptyLines str)) stat)

/-- Modelled from the spec: the assignment one line of a `<key> <number>` file gives
rise to (`parseProcVmstat`, whose source is missing). The line is split on white
space, the first token is the key and the metric name, the token after it the
value; a line without a value or with a malformed number is skipped. -/
def procVmstatLineWrites (line : List Char) : List (String × Float64) :=
  match fields line with
  | key :: tok :: _ =>
    match ParseFloat tok with
    | .ok v => [(key, v)]
    | .error _ => []
  | _ => []

/-- Modelled from the spec: what `parseProcVmstat` (whose source is missing) does with
one line of the text: carry out the assignment the line gives rise to, if any. -/
def parseProcVmstatLine (stat : Sample) (line : List Char) : Sample :=
  applyWrites (procVmstatLineWrites line) stat

/-- Modelled from the spec: `parseProcVmstat(str, &stat)`, whose source is missing:
the lines of the text are handled one after the other; the result is the map after
the call, and text input never fails. -/
def parseProcVmstat (str : String) (stat : Sample) : Except ParseError Sample :=
  .ok ((splitLines str.toList).foldl parseProcVmstatLine stat)

/-- Modelled from the spec: every assignment a `<key> <number>` file gives rise to, in
line order (`parseProcVmstat`, whose source is missing). -/
def procVmstatWrites (str : String) : List (String × Float64) :=
  (splitLines str.toList).flatMap procVmstatLineWrites

/-- The stub of `TestParseWho`. -/
def whoStub : String :=
    "test0  pts/48       2014-09-30 08:00 (192.168.24.123)\n" ++
    "test1  pts/48       2014-09-30 08:59 (192.168.24.123)\n" ++
    "test2  pts/48       2014-09-30 09:00 (192.168.24.123)"

/-- The stub of `TestParseProcVmstat`. -/
def procVmstatStub : String :=
    "pgpgin 770294\n" ++
    "pgpgout 31351354\n" ++
    "pswpin 0\n" ++
    "pswpout 113"

/-! ## float64 arithmetic used by the rate computation -/

/-- The integer `z` with which a finite value is `z * 2^exp`. -/
def signedMant (neg : Bool) (mant : Nat) : Int :=
  if neg then -(mant : Int) else (mant : Int)

/-- Round `(-1)^neg * n * 2^e` to the nearest binary64 value; an overflow gives the
infinity of that sign, as in arithmetic. -/
def Float64.roundScaled (neg : Bool) (n : Nat) (e : Int) : Float64 :=
  (if 0 ≤ e then Float64.roundRatio neg (n * 2 ^ e.toNat) 1
   else Float64.roundRatio neg n (2 ^ (-e).toNat)).getD (.inf neg)

/-- The difference `a - b` of two `float64` values (IEEE-754, round to nearest even). -/
def Float64.sub : Float64 → Float64 → Float64
  | .nan, _ => .nan
  | _, .nan => .nan
  | .inf a, .inf b => if a = b then .nan else .inf a
  | .inf a, .finite _ _ _ => .inf a
  | .finite _ _ _, .inf b => .inf (!b)
  | .finite na ma ea, .finite nb mb eb =>
    let e := min ea eb
    let d : Int :=
      signedMant na ma * 2 ^ (ea - e).toNat - signedMant nb mb * 2 ^ (eb - e).toNat
    if d = 0 then .finite (na && !nb) 0 0
    else Float64.roundScaled (decide (d < 0)) d.natAbs e

/-- The quotient `a / b` of two `float64` values (IEEE-754, round to nearest even). -/
def Float64.div : Float64 → Float64 → Float64
  | .nan, _ => .nan
  | _, .nan => .nan
  | .inf _, .inf _ => .nan
  | .inf a, .finite nb _ _ => .inf (a != nb)
  | .finite na _ _, .inf b => .finite (na != b) 0 0
  | .finite na ma ea, .finite nb mb eb =>
    if mb = 0 then (if ma = 0 then .nan else .inf (na != nb))
    else if ma = 0 then .finite (na != nb) 0 0
    else
      (if 0 ≤ ea - eb then Float64.roundRatio (na != nb) (ma * 2 ^ (ea - eb).toNat) mb
       else Float64.roundRatio (na != nb) ma (mb * 2 ^ (eb - ea).toNat)).getD
        (.inf (na != nb))

/-- The test `x < 0` on a `float64`. -/
def Float64.ltZero : Float64 → Bool
  | .finite true m _ => decide (m ≠ 0)
  | .inf true => true
  | _ => false

/-! ## The rate computation between two samples (specification, section 4.4)

`Do` hands the plugin to `helper.Run()` of go-mackerel-plugin-helper, whose source is
missing. What a run does with the fresh sample and the persisted baseline is modelled
from the specification (DiffEngine and SnapshotStore). Timestamps are whole seconds. -/

/-- Modelled from the spec: the persisted baseline (the helper library that keeps it is
missing): the last sample and the time it was taken. -/
structure PersistedBaseline where
  sample : Sample
  observedAt : Int
  deriving DecidableEq, Repr

/-- Modelled from the spec: what the DiffEngine (in the missing helper library) emits
for one metric of the given kind whose current value is `cur`. A gauge is emitted
as it is. A counter is emitted only when the baseline exists and has the name, the
elapsed time is positive and `delta = cur - base` is not negative; the value emitted
is then `delta / elapsed`. -/
def diffMetric (kind : MetricKind) (name : String) (cur : Float64) (now : Int)
    (baseline : Option PersistedBaseline) : Option Float64 :=
  match kind with
  | .gauge => some cur
  | .counter =>
    match baseline with
    | none => none
    | some b =>
      match b.sample.lookup name with
      | none => none
      | some base =>
        let elapsed := now - b.observedAt
        if elapsed ≤ 0 then none
        else
          let delta := Float64.sub cur base
          if delta.ltZero then none
          else some (Float64.div delta (Float64.ofInt elapsed))

/-- Modelled from the spec: what the DiffEngine (in the missing helper library) emits
for a metric name: nothing when the current sample lacks it. -/
def emitFor (kind : String → MetricKind) (sample : Sample) (now : Int)
    (baseline : Option PersistedBaseline) (name : String) : Option Float64 :=
  (sample.lookup name).bind (fun cur => diffMetric (kind name) name cur now baseline)

/-- Modelled from the spec: the outcome of one run of the DiffEngine (in the missing
helper library): the emitted metrics and the baseline to persist. -/
structure DiffResult where
  emitted : Sample
  baseline : PersistedBaseline
  deriving DecidableEq, Repr

/-- Modelled from the spec: one run of the DiffEngine (in the missing helper library)
on the current sample, its timestamp and the baseline loaded from the store. Every
metric name of the sample is resolved with `emitFor`; the current sample and
timestamp become the new baseline whatever was emitted. -/
def diffEngine (kind : String → MetricKind) (sample : Sample) (now : Int)
    (baseline : Option PersistedBaseline) : DiffResult :=
  { emitted :=
      applyWrites
        (sample.filterMap (fun p =>
          (emitFor kind sample now baseline p.1).map (fun r => (p.1, r)))) []
    baseline := { sample := sample, observedAt := now } }

/-- Modelled from the spec: a run as a step on the store of the SnapshotStore (in the
missing helper library): the baseline is loaded (none on the first run), the metrics
are emitted, and the new baseline replaces the stored one. -/
def runStep (kind : String → MetricKind) (sample : Sample) (now : Int)
    (store : Option PersistedBaseline) : Sample × Option PersistedBaseline :=
  ((diffEngine kind sample now store).emitted,
    some (diffEngine kind sample now store).baseline)

/-! ## `float64` holds every natural number below `2^53` exactly -/

theorem log2Fuel_spec (fuel : Nat) :
    ∀ n : Nat, n ≤ fuel → n ≠ 0 →
      2 ^ log2Fuel fuel n ≤ n ∧ n < 2 ^ (log2Fuel fuel n + 1) := by
  induction fuel with
  | zero => intro n h h0; omega
  | succ fuel ih =>
    intro n h h0
    by_cases h2 : 2 ≤ n
    · have hlt : n / 2 ≤ fuel := by omega
      have hne : n / 2 ≠ 0 := by omega
      obtain ⟨hlo, hhi⟩ := ih (n / 2) hlt hne
      simp only [log2Fuel, h2, if_true]
      constructor
      · rw [pow_succ]; omega
      · rw [pow_succ]; omega
    · have h1 : n = 1 := by omega
      subst h1
      simp [log2Fuel]

theorem log2_spec (n : Nat) (h0 : n ≠ 0) : 2 ^ log2 n ≤ n ∧ n < 2 ^ (log2 n + 1) :=
  log2Fuel_spec n n (Nat.le_refl n) h0

theorem stripTwos_spec (fuel : Nat) :
    ∀ (m : Nat) (e : Int), m ≠ 0 → m < 2 ^ fuel →
      ∃ j : Nat, (stripTwos fuel m e).2 = e + j ∧ (stripTwos fuel m e).1 * 2 ^ j = m ∧
        (stripTwos fuel m e).1 % 2 = 1 := by
  induction fuel with
  | zero => intro m e h0 hlt; simp at hlt; omega
  | succ fuel ih =>
    intro m e h0 hlt
    by_cases hev : m % 2 = 0
    · have hne : m / 2 ≠ 0 := by omega
      have hlt2 : m / 2 < 2 ^ fuel := by rw [pow_succ] at hlt; omega
      obtain ⟨j, hj, hm, hodd⟩ := ih (m / 2) (e + 1) hne hlt2
      have hc : m ≠ 0 ∧ m % 2 = 0 := ⟨h0, hev⟩
      simp only [stripTwos, hc, if_true, ne_eq, not_false_eq_true, and_self]
      refine ⟨j + 1, ?_, ?_, hodd⟩
      · rw [hj]; push_cast; ring
      · rw [pow_succ, ← Nat.mul_assoc, hm]; omega
    · have hc : ¬ (m ≠ 0 ∧ m % 2 = 0) := fun h => hev h.2
      simp only [stripTwos, hc, if_false]
      exact ⟨0, by simp, by simp, by omega⟩

theorem normalize_natValue (n k : Nat) (h0 : n ≠ 0) :
    (Float64.normalize false (n * 2 ^ k) (-(k : Int))).natValue? = some n := by
  have hm0 : n * 2 ^ k ≠ 0 := Nat.mul_ne_zero h0 (by positivity)
  obtain ⟨j, hj, hm, hodd⟩ := stripTwos_spec (log2 (n * 2 ^ k) + 1) (n * 2 ^ k) (-(k : Int))
    hm0 (log2_spec _ hm0).2
  simp only [Float64.normalize, hm0, if_false, Float64.natValue?]
  generalize (stripTwos (log2 (n * 2 ^ k) + 1) (n * 2 ^ k) (-(k : Int))).1 = a at hj hm hodd
  generalize (stripTwos (log2 (n * 2 ^ k) + 1) (n * 2 ^ k) (-(k : Int))).2 = b at hj
  subst hj
  -- `a` is odd and `a * 2^j = n * 2^k`, hence `k ≤ j`
  have h2j : 0 < 2 ^ j := by positivity
  have h2k : 0 < 2 ^ k := by positivity
  have hkj : k ≤ j := by
    by_contra hlt
    have e1 : a * 2 ^ j = (n * 2 ^ (k - j)) * 2 ^ j := by
      rw [hm, Nat.mul_assoc, ← pow_add]
      congr 2
      omega
    have ha := Nat.eq_of_mul_eq_mul_right h2j e1
    have e2 : 2 ^ (k - j) = 2 * 2 ^ (k - j - 1) := by
      rw [← pow_succ']
      congr 1
      omega
    rw [e2] at ha
    have : a = 2 * (n * 2 ^ (k - j - 1)) := by rw [ha]; ring
    omega
  have hnn : (0 : Int) ≤ -(k : Int) + (j : Int) := by omega
  simp only [hnn, if_true, Option.some.injEq]
  have htn : (-(k : Int) + (j : Int)).toNat = j - k := by omega
  rw [htn]
  have e3 : (a * 2 ^ (j - k)) * 2 ^ k = n * 2 ^ k := by
    rw [← hm, Nat.mul_assoc, ← pow_add]
    congr 2
    omega
  exact Nat.eq_of_mul_eq_mul_right h2k e3

theorem roundRatio_one (n : Nat) (h0 : n ≠ 0) (hlt : n < 2 ^ 53) :
    Float64.roundRatio false n 1 =
      some (Float64.normalize false (n * 2 ^ (52 - log2 n)) (-((52 - log2 n : Nat) : Int))) := by
  obtain ⟨hlo, _⟩ := log2_spec n h0
  have hg : log2 n ≤ 52 := by
    by_contra hc
    have h53 : 53 ≤ log2 n := by omega
    have : 2 ^ 53 ≤ 2 ^ log2 n := Nat.pow_le_pow_right (by decide) h53
    omega
  have hl1 : log2 1 = 0 := rfl
  unfold Float64.roundRatio
  simp only [h0, if_false, hl1, Nat.cast_zero, sub_zero]
  have hnn : (0 : Int) ≤ (log2 n : Int) := by omega
  have hab : (1 * 2 ^ ((log2 n : Int)).toNat ≤ n) := by
    simpa using hlo
  simp only [hnn, if_true, hab, decide_True]
  have hqe : max ((log2 n : Int) - 52) (-1074) = -((52 - log2 n : Nat) : Int) := by
    omega
  rw [hqe]
  by_cases hk : log2 n = 52
  · simp [hk, Nat.mod_one]
  · have hneg : ¬ (0 : Int) ≤ -((52 - log2 n : Nat) : Int) := by omega
    simp only [hneg, if_false, Nat.div_one, Nat.mod_one, Nat.mul_zero]
    simp
    omega

/-- Every natural number below `2^53` is held exactly by its `float64`. -/
theorem Float64.natValue_ofNat (n : Nat) (hlt : n < 2 ^ 53) :
    (Float64.ofNat n).natValue? = some n := by
  by_cases h0 : n = 0
  · subst h0
    rfl
  · unfold Float64.ofNat
    rw [roundRatio_one n h0 hlt]
    exact normalize_natValue n (52 - log2 n) h0

/-! ## `ParseFloat` on plain decimal numerals -/

theorem digit_ne (c d : Char) (h : isDigit c = true) (hd : isDigit d = false) : c ≠ d := by
  rintro rfl
  rw [h] at hd
  cases hd

theorem digitVal_of_digit (c : Char) (h : isDigit c = true) :
    digitVal false c = some (c.toNat - 48) := by
  have hd : '0' ≤ c ∧ c ≤ '9' := by simpa [isDigit] using h
  simp [digitVal, hd]

theorem digit_facts (c : Char) (h : isDigit c = true) :
    c ≠ '+' ∧ c ≠ '-' ∧ c ≠ 'i' ∧ c ≠ 'I' ∧ c ≠ 'n' ∧ c ≠ 'N' ∧ c ≠ '_' ∧ c ≠ '.' ∧
      c ≠ 'x' ∧ c ≠ 'X' ∧ c ≠ 'e' ∧ c ≠ 'E' ∧ digitVal false c = some (c.toNat - 48) :=
  ⟨digit_ne c _ h (by decide), digit_ne c _ h (by decide), digit_ne c _ h (by decide),
    digit_ne c _ h (by decide), digit_ne c _ h (by decide), digit_ne c _ h (by decide),
    digit_ne c _ h (by decide), digit_ne c _ h (by decide), digit_ne c _ h (by decide),
    digit_ne c _ h (by decide), digit_ne c _ h (by decide), digit_ne c _ h (by decide),
    digitVal_of_digit c h⟩

theorem special_of_digit (c : Char) (t : List Char) (h : isDigit c = true) :
    special (c :: t) = none := by
  obtain ⟨h1, h2, h3, h4, h5, h6, _⟩ := digit_facts c h
  simp [special, h1, h2, h3, h4, h5, h6]

theorem readSign_of_digit (c : Char) (t : List Char) (h : isDigit c = true) :
    readSign (c :: t) = (false, c :: t) := by
  obtain ⟨h1, h2, _⟩ := digit_facts c h
  simp [readSign, h1, h2]

theorem readBase_of_digits (ds : List Char) (h : ∀ c ∈ ds, isDigit c = true) :
    readBase ds = (false, ds) := by
  match ds, h with
  | [], _ => rfl
  | [_], _ => rfl
  | [_, _], _ => rfl
  | z :: x :: c :: t, h =>
    obtain ⟨_, _, _, _, _, _, _, _, h9, h10, _⟩ :=
      digit_facts x (h x (by simp))
    simp [readBase, h9, h10]

theorem scanMant_digit_step (c : Char) (t : List Char) (st : MantScan)
    (h : isDigit c = true) (hdot : st.sawdot = false) :
    scanMant false (c :: t) st =
      scanMant false t { st with sawdigits := true, mant := st.mant * 10 + (c.toNat - 48) } := by
  obtain ⟨_, _, _, _, _, _, h7, h8, _, _, _, _, hv⟩ := digit_facts c h
  rw [scanMant]
  simp only [h7, h8, if_false, hv, hdot]
  rfl

theorem scanMant_of_digits (ds : List Char) :
    ∀ st : MantScan, st.sawdot = false → (∀ c ∈ ds, isDigit c = true) →
      scanMant false ds st =
        (MantScan.mk (digitsValueFrom ds st.mant) st.fracDigits false
          (st.sawdigits || !ds.isEmpty) st.underscores, []) := by
  induction ds with
  | nil =>
    intro st hdot _
    cases st
    simp only at hdot
    subst hdot
    simp [scanMant, digitsValueFrom]
  | cons c t ih =>
    intro st hdot h
    rw [scanMant_digit_step c t st (h c (List.mem_cons_self _ _)) hdot]
    rw [ih { st with sawdigits := true, mant := st.mant * 10 + (c.toNat - 48) } hdot
      (fun d hd => h d (List.mem_cons_of_mem _ hd))]
    simp [digitsValueFrom]

theorem readFloat_of_digits (c : Char) (t : List Char)
    (h : ∀ d ∈ c :: t, isDigit d = true) :
    readFloat (c :: t) = some ⟨false, false, digitsValue (c :: t), 0, 0, []⟩ := by
  have hc : isDigit c = true := h c (List.mem_cons_self _ _)
  unfold readFloat
  simp only [readSign_of_digit c t hc, readBase_of_digits (c :: t) h]
  rw [scanMant_of_digits (c :: t) {} rfl h]
  simp [readExp, digitsValue]

theorem special_of_minus_digit (c : Char) (t : List Char) (h : isDigit c = true) :
    special ('-' :: c :: t) = none := by
  have hl : lowerAZ c ≠ 'i' := by
    have hd : '0' ≤ c ∧ c ≤ '9' := by simpa [isDigit] using h
    have hnot : ¬ ('A' ≤ c ∧ c ≤ 'Z') := by
      rintro ⟨h1, _⟩
      exact absurd (le_trans h1 hd.2) (by decide)
    simp only [lowerAZ, hnot, if_false]
    exact digit_ne c _ h (by decide)
  have hcl : commonLenIgnoreCase (c :: t) "infinity".toList = 0 := by
    show commonLenIgnoreCase (c :: t) ('i' :: "nfinity".toList) = 0
    simp [commonLenIgnoreCase, hl]
  have h1 : ('-' : Char) ≠ '+' := by decide
  simp only [special, h1, if_false, if_true, hcl]
  simp

theorem readFloat_of_minus_digits (c : Char) (t : List Char)
    (h : ∀ d ∈ c :: t, isDigit d = true) :
    readFloat ('-' :: c :: t) = some ⟨true, false, digitsValue (c :: t), 0, 0, []⟩ := by
  have hs : readSign ('-' :: c :: t) = (true, c :: t) := by
    have h1 : ('-' : Char) ≠ '+' := by decide
    simp [readSign, h1]
  unfold readFloat
  simp only [hs, readBase_of_digits (c :: t) h]
  rw [scanMant_of_digits (c :: t) {} rfl h]
  simp [readExp, digitsValue]

theorem parseFloatChars_digits (ds : List Char) (hne : ds ≠ [])
    (h : ∀ d ∈ ds, isDigit d = true) :
    parseFloatChars ds =
      match Float64.roundRatio false (digitsValue ds) 1 with
      | some f => .ok f
      | none => .error .errRange := by
  cases ds with
  | nil => exact absurd rfl hne
  | cons c t =>
    unfold parseFloatChars
    rw [special_of_digit c t (h c (List.mem_cons_self _ _)), readFloat_of_digits c t h]
    simp [ReadFloat.value]

theorem parseFloatChars_minus_digits (ds : List Char) (hne : ds ≠ [])
    (h : ∀ d ∈ ds, isDigit d = true) :
    parseFloatChars ('-' :: ds) =
      match Float64.roundRatio true (digitsValue ds) 1 with
      | some f => .ok f
      | none => .error .errRange := by
  cases ds with
  | nil => exact absurd rfl hne
  | cons c t =>
    unfold parseFloatChars
    rw [special_of_minus_digit c t (h c (List.mem_cons_self _ _)),
      readFloat_of_minus_digits c t h]
    simp [ReadFloat.value]

theorem ite_none_some_isSome {α : Type} (c : Prop) [Decidable c] (x : α) (h : ¬ c) :
    ∃ f, (if c then none else some x) = some f :=
  ⟨x, if_neg h⟩

theorem roundRatio_one_isSome (neg : Bool) (n : Nat) (hlt : n < 2 ^ 64) :
    ∃ f, Float64.roundRatio neg n 1 = some f := by
  by_cases h0 : n = 0
  · exact ⟨.finite neg 0 0, by simp [Float64.roundRatio, h0]⟩
  · obtain ⟨hlo, _⟩ := log2_spec n h0
    have hg : log2 n ≤ 63 := by
      by_contra hc
      have h64 : 64 ≤ log2 n := by omega
      have : 2 ^ 64 ≤ 2 ^ log2 n := Nat.pow_le_pow_right (by decide) h64
      omega
    have hl1 : log2 1 = 0 := rfl
    unfold Float64.roundRatio
    simp only [h0, if_false, hl1, Nat.cast_zero, sub_zero]
    have hnn : (0 : Int) ≤ (log2 n : Int) := by omega
    have hab : (1 * 2 ^ ((log2 n : Int)).toNat ≤ n) := by simpa using hlo
    simp only [hnn, if_true, hab, decide_True]
    have hqe : max ((log2 n : Int) - 52) (-1074) ≤ 11 := by omega
    apply ite_none_some_isSome
    rintro (h | ⟨h, _⟩) <;> omega

theorem roundRatio_ofNat (n : Nat) (hlt : n < 2 ^ 64) :
    Float64.roundRatio false n 1 = some (Float64.ofNat n) := by
  obtain ⟨f, hf⟩ := roundRatio_one_isSome false n hlt
  simp [Float64.ofNat, hf]

theorem roundRatio_ofInt (n : Int) (hlt : n.natAbs < 2 ^ 64) :
    Float64.roundRatio (decide (n < 0)) n.natAbs 1 = some (Float64.ofInt n) := by
  obtain ⟨f, hf⟩ := roundRatio_one_isSome (decide (n < 0)) n.natAbs hlt
  simp [Float64.ofInt, hf]

/-- A plain decimal numeral below `2^64` parses to the `float64` of the number it
denotes. -/
theorem parseFloatChars_of_digits (ds : List Char) (hne : ds ≠ [])
    (h : ∀ d ∈ ds, isDigit d = true) (hlt : digitsValue ds < 2 ^ 64) :
    parseFloatChars ds = .ok (Float64.ofNat (digitsValue ds)) := by
  rw [parseFloatChars_digits ds hne h, roundRatio_ofNat _ hlt]

/-! ## `ParseFloat` reads back what `fmt.Sprint` prints for an integer -/

theorem digitsValueFrom_append (xs ys : List Char) :
    ∀ acc : Nat, digitsValueFrom (xs ++ ys) acc = digitsValueFrom ys (digitsValueFrom xs acc) := by
  induction xs with
  | nil => intro acc; rfl
  | cons c t ih => intro acc; simp [digitsValueFrom, ih]

theorem digitChar_spec (d : Nat) (hd : d < 10) :
    isDigit (Char.ofNat (48 + d)) = true ∧ (Char.ofNat (48 + d)).toNat - 48 = d := by
  interval_cases d <;> decide

theorem natDigits_spec (fuel : Nat) :
    ∀ n : Nat, n < fuel →
      (∀ c ∈ natDigits fuel n, isDigit c = true) ∧ natDigits fuel n ≠ [] ∧
        digitsValueFrom (natDigits fuel n) 0 = n := by
  induction fuel with
  | zero => intro n h; omega
  | succ fuel ih =>
    intro n h
    by_cases h10 : n < 10
    · obtain ⟨hd, hv⟩ := digitChar_spec n h10
      simp only [natDigits, h10, if_true]
      refine ⟨?_, by simp, ?_⟩
      · intro c hc
        rw [List.mem_singleton.mp hc]
        exact hd
      · simp [digitsValueFrom, hv]
    · obtain ⟨hall, hne, hval⟩ := ih (n / 10) (by omega)
      obtain ⟨hd, hv⟩ := digitChar_spec (n % 10) (Nat.mod_lt _ (by decide))
      simp only [natDigits, h10, if_false]
      refine ⟨?_, by simp [hne], ?_⟩
      · intro c hc
        rcases List.mem_append.mp hc with hc | hc
        · exact hall c hc
        · rw [List.mem_singleton.mp hc]
          exact hd
      · rw [digitsValueFrom_append, hval]
        simp only [digitsValueFrom, hv]
        omega

/-- `ParseFloat` reads the text printed for a 64-bit integer back as its `float64`. -/
theorem ParseFloat_formatInt (n : Int) (hlo : -2 ^ 63 ≤ n) (hhi : n < 2 ^ 63) :
    ParseFloat (formatInt n) = .ok (Float64.ofInt n) := by
  obtain ⟨hall, hne, hval⟩ := natDigits_spec (n.natAbs + 1) n.natAbs (Nat.lt_succ_self _)
  have hv : digitsValue (natDigits (n.natAbs + 1) n.natAbs) = n.natAbs := hval
  have habs : n.natAbs < 2 ^ 64 := by omega
  unfold ParseFloat formatInt
  by_cases hneg : n < 0
  · simp only [hneg, if_true]
    show parseFloatChars ('-' :: natDigits (n.natAbs + 1) n.natAbs) = _
    rw [parseFloatChars_minus_digits _ hne hall, hv]
    have := roundRatio_ofInt n habs
    simp only [hneg, decide_True] at this
    rw [this]
  · simp only [hneg, if_false]
    show parseFloatChars (natDigits (n.natAbs + 1) n.natAbs) = _
    rw [parseFloatChars_digits _ hne hall, hv]
    have := roundRatio_ofInt n habs
    simp only [hneg, decide_False] at this
    rw [this]

/-! ## Lemmas on `getFloatValue` -/

theorem getFloatValueLoop_cons_doc (s d : Doc) (val : Float64) (k : String)
    (rest : List String) (hl : s.lookup k = some (.doc d)) (hr : rest ≠ []) :
    getFloatValueLoop s val (k :: rest) = getFloatValueLoop d val rest := by
  simp [getFloatValueLoop, hl, hr]

theorem getFloatValueLoop_through_maps (pre : List String) :
    ∀ (s m : Doc) (val : Float64) (rest : List String),
      resolveMaps s pre = some m → rest ≠ [] →
      getFloatValueLoop s val (pre ++ rest) = getFloatValueLoop m val rest := by
  induction pre with
  | nil =>
    intro s m val rest h _
    simp only [resolveMaps, Option.some.injEq] at h
    subst h
    rfl
  | cons k ks ih =>
    intro s m val rest h hrest
    have hne : ks ++ rest ≠ [] := by simp [hrest]
    cases hl : s.lookup k with
    | none => simp [resolveMaps, hl] at h
    | some v =>
      cases v with
      | doc d =>
        simp only [resolveMaps, hl] at h
        rw [List.cons_append, getFloatValueLoop_cons_doc s d val k (ks ++ rest) hl hne]
        exact ih d m val rest h hrest
      | _ => simp [resolveMaps, hl] at h

theorem getFloatValueLoop_last (m : Doc) (val : Float64) (k : String) (v : Value)
    (hl : m.lookup k = some v) :
    getFloatValueLoop m val [k] =
      match parseFloatSprint v with
      | .error e => .error (.numError e)
      | .ok f => .ok f := by
  simp only [getFloatValueLoop, hl, ne_eq, not_true_eq_false, if_false]

theorem getFloatValue_final (s m : Doc) (pre : List String) (k : String) (v : Value)
    (hm : resolveMaps s pre = some m) (hl : m.lookup k = some v) :
    getFloatValue s (pre ++ [k]) =
      match parseFloatSprint v with
      | .error e => .error (.numError e)
      | .ok f => .ok f := by
  unfold getFloatValue
  rw [getFloatValueLoop_through_maps pre s m _ [k] hm (by simp)]
  exact getFloatValueLoop_last m _ k v hl

theorem parseFloatSprint_of_asNumber (v : Value) (f : Float64) (h : v.asNumber = some f) :
    parseFloatSprint v = .ok f := by
  cases v with
  | int n =>
    simp only [Value.asNumber] at h
    split_ifs at h with hr
    simp only [Option.some.injEq] at h
    subst h
    exact ParseFloat_formatInt n hr.1 hr.2
  | double g =>
    simp only [Value.asNumber, Option.some.injEq] at h
    subst h
    rfl
  | _ => simp [Value.asNumber] at h

theorem getFloatValueLoop_keyNotFound (keys : List String) :
    ∀ (s : Doc) (val : Float64) (k : String),
      getFloatValueLoop s val keys = .error (.keyNotFound k) →
      ∃ pre rest m, keys = pre ++ k :: rest ∧ resolveMaps s pre = some m ∧
        m.lookup k = none := by
  induction keys with
  | nil => intro s val k h; simp [getFloatValueLoop] at h
  | cons k' rest' ih =>
    intro s val k h
    cases hl : s.lookup k' with
    | none =>
      simp only [getFloatValueLoop, hl, Except.error.injEq, Err.keyNotFound.injEq] at h
      subst h
      exact ⟨[], rest', s, rfl, rfl, hl⟩
    | some v =>
      by_cases hr : rest' = []
      · subst hr
        rw [getFloatValueLoop_last s val k' v hl] at h
        cases hp : parseFloatSprint v <;> simp [hp] at h
      · cases v with
        | doc d =>
          rw [getFloatValueLoop_cons_doc s d val k' rest' hl hr] at h
          obtain ⟨pre, rest, m, hk, hm, hn⟩ := ih d val k h
          refine ⟨k' :: pre, rest, m, by simp [hk], ?_, hn⟩
          simp [resolveMaps, hl, hm]
        | _ => simp [getFloatValueLoop, hl, hr] at h

/-! ## Lemmas on association lists -/

theorem lookup_cons_ite {α : Type} (k k0 : String) (v0 : α) (rest : List (String × α)) :
    ((k0, v0) :: rest).lookup k = if k = k0 then some v0 else rest.lookup k := by
  by_cases h : k = k0
  · simp [List.lookup, h]
  · have hb : (k == k0) = false := by simpa using h
    simp [List.lookup, hb, h]

theorem lookup_nil_eq {α : Type} (k : String) : ([] : List (String × α)).lookup k = none :=
  rfl

theorem lookup_mapSet {α : Type} (k k' : String) (v : α) (m : List (String × α)) :
    (mapSet k v m).lookup k' = if k' = k then some v else m.lookup k' := by
  induction m with
  | nil =>
    by_cases h : k' = k <;> simp [mapSet, lookup_cons_ite, lookup_nil_eq, h]
  | cons p rest ih =>
    obtain ⟨k0, v0⟩ := p
    by_cases h0 : k0 = k
    · subst h0
      by_cases h : k' = k0 <;> simp [mapSet, lookup_cons_ite, lookup_nil_eq, h]
    · by_cases h : k' = k
      · subst h
        have : ¬ k' = k0 := fun e => h0 e.symm
        simp [mapSet, lookup_cons_ite, h0, this, ih]
      · by_cases h1 : k' = k0 <;> simp [mapSet, lookup_cons_ite, h0, h, h1, ih]

theorem mem_mapSet {α : Type} (k : String) (v : α) (m : List (String × α))
    (p : String × α) (hp : p ∈ mapSet k v m) : p = (k, v) ∨ p ∈ m := by
  induction m with
  | nil => simpa [mapSet] using hp
  | cons q rest ih =>
    obtain ⟨k0, v0⟩ := q
    by_cases h0 : k0 = k
    · simp only [mapSet, h0, if_true, List.mem_cons] at hp
      rcases hp with hp | hp
      · exact Or.inl hp
      · exact Or.inr (List.mem_cons_of_mem _ hp)
    · simp only [mapSet, h0, if_false, List.mem_cons] at hp
      rcases hp with hp | hp
      · exact Or.inr (hp ▸ List.mem_cons_self _ _)
      · rcases ih hp with h | h
        · exact Or.inl h
        · exact Or.inr (List.mem_cons_of_mem _ h)

theorem lookup_eq_none_of_not_mem_keys {α : Type} (k : String) (m : List (String × α))
    (h : k ∉ m.map Prod.fst) : m.lookup k = none := by
  induction m with
  | nil => rfl
  | cons p rest ih =>
    obtain ⟨k0, v0⟩ := p
    simp only [List.map_cons, List.mem_cons, not_or] at h
    simp [lookup_cons_ite, h.1, ih h.2]

/-! ## Lemmas on `parseStatus` and `GraphDefinition` -/

theorem resolved_eq_some (serverStatus : Doc) (path : List String) (val : Float64) :
    resolved serverStatus path = some val ↔ getFloatValue serverStatus path = .ok val := by
  unfold resolved
  cases getFloatValue serverStatus path <;> simp

theorem lookup_parseStatusStep (serverStatus : Doc) (acc : Sample × List LogEntry)
    (kv : String × List String) (k : String) :
    (parseStatusStep serverStatus acc kv).1.lookup k =
      if k = kv.1 then (resolved serverStatus kv.2).orElse (fun _ => acc.1.lookup k)
      else acc.1.lookup k := by
  unfold parseStatusStep resolved
  cases getFloatValue serverStatus kv.2 with
  | error e =>
    by_cases hk : e.isKeyNotFound = true <;> by_cases h : k = kv.1 <;> simp [hk, h]
  | ok val => by_cases h : k = kv.1 <;> simp [lookup_mapSet, h]

theorem lookup_foldl_parseStatusStep (serverStatus : Doc) (tbl : List (String × List String)) :
    ∀ (acc : Sample × List LogEntry) (k : String), (tbl.map Prod.fst).Nodup →
      (tbl.foldl (parseStatusStep serverStatus) acc).1.lookup k =
        match tbl.lookup k with
        | some path => (resolved serverStatus path).orElse (fun _ => acc.1.lookup k)
        | none => acc.1.lookup k := by
  induction tbl with
  | nil => intro acc k _; rfl
  | cons kv rest ih =>
    intro acc k hnd
    obtain ⟨k0, p0⟩ := kv
    simp only [List.map_cons, List.nodup_cons] at hnd
    rw [List.foldl_cons, ih _ k hnd.2]
    by_cases h : k = k0
    · subst h
      rw [lookup_eq_none_of_not_mem_keys k rest hnd.1]
      simp [lookup_cons_ite, lookup_parseStatusStep]
    · simp [lookup_cons_ite, lookup_parseStatusStep, h]

theorem metricPlace_keys_nodup : (metricPlace.map Prod.fst).Nodup := by
  decide


theorem resolves_iff (serverStatus : Doc) (m : Metrics) :
    resolves serverStatus m = true ↔
      ∃ val, getFloatValue serverStatus (metricPlaceAt m.Name) = .ok val := by
  unfold resolves
  cases getFloatValue serverStatus (metricPlaceAt m.Name) <;> simp

theorem foldl_resolvable_eq (serverStatus : Doc) (ms : List Metrics) :
    ∀ acc : List Metrics,
      ms.foldl (fun metrics m =>
        match getFloatValue serverStatus (metricPlaceAt m.Name) with
        | .ok _ => metrics ++ [m]
        | .error _ => metrics) acc = acc ++ ms.filter (resolves serverStatus) := by
  induction ms with
  | nil => intro acc; simp
  | cons m rest ih =>
    intro acc
    rw [List.foldl_cons, ih]
    cases hg : getFloatValue serverStatus (metricPlaceAt m.Name) with
    | error e =>
      have hr : resolves serverStatus m = false := by simp [resolves, hg]
      simp [List.filter_cons, hr]
    | ok val =>
      have hr : resolves serverStatus m = true := by simp [resolves, hg]
      simp [List.filter_cons, hr]

theorem resolvableMetrics_eq_filter (serverStatus : Doc) (ms : List Metrics) :
    resolvableMetrics serverStatus ms = ms.filter (resolves serverStatus) := by
  unfold resolvableMetrics
  rw [foldl_resolvable_eq]
  rfl

theorem lookup_graphDefinitionStep (serverStatus : Doc) (g : List (String × Graphs))
    (kv : String × Graphs) (k : String) :
    (graphDefinitionStep serverStatus g kv).lookup k =
      if k = kv.1 then (retained serverStatus kv.2).orElse (fun _ => g.lookup k)
      else g.lookup k := by
  unfold graphDefinitionStep retained
  rw [resolvableMetrics_eq_filter]
  by_cases he : kv.2.Metrics.filter (resolves serverStatus) = []
  · by_cases h : k = kv.1 <;> simp [he, h]
  · have hpos : (kv.2.Metrics.filter (resolves serverStatus)).length > 0 :=
      List.length_pos.mpr he
    by_cases h : k = kv.1 <;> simp [he, hpos, h, lookup_mapSet]

theorem lookup_foldl_graphDefinitionStep (serverStatus : Doc) (tbl : List (String × Graphs)) :
    ∀ (g : List (String × Graphs)) (k : String), (tbl.map Prod.fst).Nodup →
      (tbl.foldl (graphDefinitionStep serverStatus) g).lookup k =
        match tbl.lookup k with
        | some v => (retained serverStatus v).orElse (fun _ => g.lookup k)
        | none => g.lookup k := by
  induction tbl with
  | nil => intro g k _; rfl
  | cons kv rest ih =>
    intro g k hnd
    obtain ⟨k0, v0⟩ := kv
    simp only [List.map_cons, List.nodup_cons] at hnd
    rw [List.foldl_cons, ih _ k hnd.2]
    by_cases h : k = k0
    · subst h
      rw [lookup_eq_none_of_not_mem_keys k rest hnd.1]
      simp [lookup_cons_ite, lookup_graphDefinitionStep]
    · simp [lookup_cons_ite, lookup_graphDefinitionStep, h]

theorem graphdef_keys_nodup : (graphdef.map Prod.fst).Nodup := by
  decide

theorem lookup_GraphDefinition_ok (serverStatus : Doc) (k : String) :
    (GraphDefinition (.ok serverStatus)).lookup k =
      (graphdef.lookup k).bind (retained serverStatus) := by
  unfold GraphDefinition
  simp only []
  rw [lookup_foldl_graphDefinitionStep serverStatus graphdef [] k graphdef_keys_nodup]
  cases graphdef.lookup k with
  | none => rfl
  | some v => cases hr : retained serverStatus v <;> simp [hr, lookup_nil_eq]

theorem mem_foldl_graphDefinitionStep (serverStatus : Doc) (tbl : List (String × Graphs)) :
    ∀ (g : List (String × Graphs)), (∀ p ∈ g, p.2.Metrics ≠ []) →
      ∀ p ∈ tbl.foldl (graphDefinitionStep serverStatus) g, p.2.Metrics ≠ [] := by
  induction tbl with
  | nil => intro g hg p hp; exact hg p hp
  | cons kv rest ih =>
    intro g hg
    rw [List.foldl_cons]
    apply ih
    intro p hp
    unfold graphDefinitionStep at hp
    by_cases hl : (resolvableMetrics serverStatus kv.2.Metrics).length > 0
    · simp only [hl, if_true] at hp
      rcases mem_mapSet _ _ _ _ hp with h | h
      · subst h
        exact List.length_pos.mp hl
      · exact hg p h
    · simp only [hl, if_false] at hp
      exact hg p hp

/-! ## Lemmas on the tempfile basename -/

theorem append_cons_inj_of_not_mem_tail {α : Type} (x : α) :
    ∀ (r₁ r₂ t₁ t₂ : List α), x ∉ r₁ → x ∉ r₂ →
      r₁ ++ x :: t₁ = r₂ ++ x :: t₂ → r₁ = r₂ ∧ t₁ = t₂ := by
  intro r₁
  induction r₁ with
  | nil =>
    intro r₂ t₁ t₂ _ h₂ h
    cases r₂ with
    | nil => simpa using h
    | cons y r₂ =>
      simp only [List.nil_append, List.cons_append, List.cons.injEq] at h
      exact absurd (h.1 ▸ List.mem_cons_self _ _) h₂
  | cons y r₁ ih =>
    intro r₂ t₁ t₂ h₁ h₂ h
    cases r₂ with
    | nil =>
      simp only [List.nil_append, List.cons_append, List.cons.injEq] at h
      exact absurd (h.1 ▸ List.mem_cons_self _ _) h₁
    | cons z r₂ =>
      simp only [List.cons_append, List.cons.injEq] at h
      obtain ⟨hr, ht⟩ := ih r₂ t₁ t₂ (fun hm => h₁ (List.mem_cons_of_mem _ hm))
        (fun hm => h₂ (List.mem_cons_of_mem _ hm)) h.2
      exact ⟨by rw [h.1, hr], ht⟩

theorem append_sep_inj {α : Type} (x : α) (a₁ a₂ b₁ b₂ : List α)
    (h₁ : x ∉ b₁) (h₂ : x ∉ b₂) (h : a₁ ++ x :: b₁ = a₂ ++ x :: b₂) :
    a₁ = a₂ ∧ b₁ = b₂ := by
  have hrev : b₁.reverse ++ x :: a₁.reverse = b₂.reverse ++ x :: a₂.reverse := by
    have := congrArg List.reverse h
    simpa using this
  obtain ⟨hb, ha⟩ := append_cons_inj_of_not_mem_tail x _ _ _ _
    (by simpa using h₁) (by simpa using h₂) hrev
  exact ⟨List.reverse_injective ha, List.reverse_injective hb⟩

theorem tempfileBasename_data (optHost optPort : String) :
    (tempfileBasename optHost optPort).data =
      "mackerel-plugin-mongodb-".data ++ (optHost.data ++ '-' :: optPort.data) := by
  simp [tempfileBasename, String.data_append]

/-! ## Lemmas on assignment lists and tallies -/

theorem lookup_of_mem_of_nodup {α : Type} (l : List (String × α)) (k : String) (v : α)
    (hnd : (l.map Prod.fst).Nodup) (hm : (k, v) ∈ l) : l.lookup k = some v := by
  induction l with
  | nil => exact absurd hm (List.not_mem_nil _)
  | cons p rest ih =>
    obtain ⟨k0, v0⟩ := p
    simp only [List.map_cons, List.nodup_cons] at hnd
    rcases List.mem_cons.mp hm with h | h
    · obtain ⟨rfl, rfl⟩ := Prod.mk.inj h
      simp [lookup_cons_ite]
    · have hk : k ∈ rest.map Prod.fst := List.mem_map.mpr ⟨(k, v), h, rfl⟩
      have hne : k ≠ k0 := fun e => hnd.1 (e ▸ hk)
      simp [lookup_cons_ite, hne, ih hnd.2 h]

theorem lookup_applyWrites (ws : List (String × Float64)) :
    ∀ (stat : Sample) (k : String), (ws.map Prod.fst).Nodup →
      (applyWrites ws stat).lookup k = (ws.lookup k).orElse (fun _ => stat.lookup k) := by
  induction ws with
  | nil => intro stat k _; rfl
  | cons w rest ih =>
    intro stat k hnd
    obtain ⟨k0, v0⟩ := w
    simp only [List.map_cons, List.nodup_cons] at hnd
    have hstep : applyWrites ((k0, v0) :: rest) stat = applyWrites rest (mapSet k0 v0 stat) :=
      rfl
    rw [hstep, ih _ k hnd.2]
    by_cases h : k = k0
    · subst h
      rw [lookup_eq_none_of_not_mem_keys k rest hnd.1]
      simp [lookup_cons_ite, lookup_mapSet]
    · simp [lookup_cons_ite, lookup_mapSet, h]

theorem lookup_applyWrites_of_mem (ws : List (String × Float64)) (stat : Sample)
    (k : String) (v : Float64) (hnd : (ws.map Prod.fst).Nodup) (hm : (k, v) ∈ ws) :
    (applyWrites ws stat).lookup k = some v := by
  rw [lookup_applyWrites ws stat k hnd, lookup_of_mem_of_nodup ws k v hnd hm]
  rfl

theorem lookup_applyWrites_of_not_mem (ws : List (String × Float64)) :
    ∀ (stat : Sample) (k : String), k ∉ ws.map Prod.fst →
      (applyWrites ws stat).lookup k = stat.lookup k := by
  induction ws with
  | nil => intro stat k _; rfl
  | cons w rest ih =>
    intro stat k hk
    obtain ⟨k0, v0⟩ := w
    simp only [List.map_cons, List.mem_cons, not_or] at hk
    have hstep : applyWrites ((k0, v0) :: rest) stat = applyWrites rest (mapSet k0 v0 stat) :=
      rfl
    rw [hstep, ih _ k hk.2, lookup_mapSet]
    simp [hk.1]

theorem keys_mapSet {α : Type} (k : String) (v : α) (m : List (String × α)) :
    (mapSet k v m).map Prod.fst =
      if k ∈ m.map Prod.fst then m.map Prod.fst else m.map Prod.fst ++ [k] := by
  induction m with
  | nil => simp [mapSet]
  | cons p rest ih =>
    obtain ⟨k0, v0⟩ := p
    by_cases h0 : k0 = k
    · subst h0
      simp [mapSet]
    · have h0' : ¬ k = k0 := fun e => h0 e.symm
      by_cases hm : k ∈ rest.map Prod.fst
      · simp only [mapSet, h0, if_false, List.map_cons, ih, hm, if_true, List.mem_cons,
          or_true]
      · simp only [mapSet, h0, if_false, List.map_cons, ih, hm, List.mem_cons, h0',
          or_self, List.cons_append]

theorem nodup_keys_mapSet {α : Type} (k : String) (v : α) (m : List (String × α))
    (hnd : (m.map Prod.fst).Nodup) : ((mapSet k v m).map Prod.fst).Nodup := by
  rw [keys_mapSet]
  by_cases hm : k ∈ m.map Prod.fst
  · simpa [hm] using hnd
  · simp only [hm, if_false]
    exact List.Nodup.append hnd (List.nodup_singleton k) (by simpa using hm)

theorem lookup_map_snd {α β : Type} (f : α → β) (m : List (String × α)) (k : String) :
    (m.map (fun p => (p.1, f p.2))).lookup k = (m.lookup k).map f := by
  induction m with
  | nil => rfl
  | cons p rest ih =>
    obtain ⟨k0, v0⟩ := p
    by_cases h : k = k0 <;> simp [lookup_cons_ite, h, ih]

theorem keys_map_snd {α β : Type} (f : α → β) (m : List (String × α)) :
    (m.map (fun p => (p.1, f p.2))).map Prod.fst = m.map Prod.fst := by
  induction m with
  | nil => rfl
  | cons p rest ih => simp [ih]

/-- The tally loop started from given counts. -/
theorem nodup_keys_foldl_tally (rows : List (List Char)) :
    ∀ counts : List (String × Nat), (counts.map Prod.fst).Nodup →
      ((rows.foldl (fun counts row =>
        match rowLabel row with
        | some label => bump counts label
        | none => counts) counts).map Prod.fst).Nodup := by
  induction rows with
  | nil => intro counts h; exact h
  | cons row rest ih =>
    intro counts h
    rw [List.foldl_cons]
    apply ih
    cases rowLabel row with
    | none => exact h
    | some label => exact nodup_keys_mapSet _ _ _ h

theorem countLabel_cons (label : String) (row : List Char) (rest : List (List Char)) :
    countLabel label (row :: rest) =
      (if rowLabel row = some label then 1 else 0) + countLabel label rest := by
  unfold countLabel
  by_cases h : rowLabel row = some label
  · simp [List.filter_cons, h, Nat.add_comm]
  · simp [List.filter_cons, h]

theorem lookup_foldl_tally (rows : List (List Char)) :
    ∀ (counts : List (String × Nat)) (label : String),
      (rows.foldl (fun counts row =>
        match rowLabel row with
        | some label => bump counts label
        | none => counts) counts).lookup label =
        if countLabel label rows = 0 then counts.lookup label
        else some ((counts.lookup label).getD 0 + countLabel label rows) := by
  induction rows with
  | nil => intro counts label; simp [countLabel]
  | cons row rest ih =>
    intro counts label
    rw [List.foldl_cons, ih, countLabel_cons]
    cases hr : rowLabel row with
    | none => simp
    | some l =>
      by_cases hl : l = label
      · subst hl
        simp only [if_true, bump, lookup_mapSet, Option.getD_some]
        by_cases hc : countLabel l rest = 0
        · simp [hc]
        · have : 1 + countLabel l rest ≠ 0 := by omega
          simp only [hc, this, if_false, Option.some.injEq]
          omega
      · have hl' : ¬ label = l := fun e => hl e.symm
        have hs : ¬ (some l = some label) := fun e => hl (Option.some.inj e)
        simp only [hs, if_false, Nat.zero_add, bump, lookup_mapSet, hl']

theorem lookup_tally (rows : List (List Char)) (label : String) :
    (tally rows).lookup label =
      if countLabel label rows = 0 then none else some (countLabel label rows) := by
  unfold tally
  rw [lookup_foldl_tally]
  simp [lookup_nil_eq]

theorem nodup_keys_tally (rows : List (List Char)) : ((tally rows).map Prod.fst).Nodup :=
  nodup_keys_foldl_tally rows [] List.nodup_nil

theorem lookup_applyWrites_of_agree (ws : List (String × Float64)) (k : String)
    (v : Float64) :
    ∀ stat : Sample, (∀ w ∈ ws, w.1 = k → w.2 = v) →
      (applyWrites ws stat).lookup k =
        if k ∈ ws.map Prod.fst then some v else stat.lookup k := by
  induction ws with
  | nil => intro stat _; rfl
  | cons w rest ih =>
    intro stat hag
    obtain ⟨k0, v0⟩ := w
    have hstep : applyWrites ((k0, v0) :: rest) stat = applyWrites rest (mapSet k0 v0 stat) :=
      rfl
    rw [hstep, ih _ (fun w hw => hag w (List.mem_cons_of_mem _ hw)), lookup_mapSet]
    by_cases h : k = k0
    · subst h
      have hv : v0 = v := hag (k, v0) (List.mem_cons_self _ _) rfl
      simp [hv]
    · simp only [h, if_false, List.map_cons]
      by_cases hm : k ∈ rest.map Prod.fst
      · rw [if_pos hm, if_pos (List.mem_cons_of_mem _ hm)]
      · have hm' : k ∉ k0 :: rest.map Prod.fst := by
          simp only [List.mem_cons, not_or]
          exact ⟨h, hm⟩
        rw [if_neg hm, if_neg hm']

theorem applyWrites_append (ws₁ ws₂ : List (String × Float64)) (stat : Sample) :
    applyWrites (ws₁ ++ ws₂) stat = applyWrites ws₂ (applyWrites ws₁ stat) := by
  unfold applyWrites
  rw [List.foldl_append]

theorem foldl_applyWrites_eq (f : List Char → List (String × Float64))
    (lines : List (List Char)) :
    ∀ stat : Sample,
      lines.foldl (fun st line => applyWrites (f line) st) stat =
        applyWrites (lines.flatMap f) stat := by
  induction lines with
  | nil => intro stat; rfl
  | cons l rest ih =>
    intro stat
    rw [List.foldl_cons, ih, List.flatMap_cons, applyWrites_append]

theorem parseProcStat_eq (str : String) (stat : Sample) :
    parseProcStat str stat = .ok (applyWrites (procStatWrites str) stat) := by
  unfold parseProcStat procStatWrites
  rw [← foldl_applyWrites_eq procStatLineWrites]
  rfl

theorem parseProcDiskstats_eq (str : String) (stat : Sample) :
    parseProcDiskstats str stat = .ok (applyWrites (diskstatsWrites str) stat) := by
  unfold parseProcDiskstats diskstatsWrites
  rw [← foldl_applyWrites_eq diskstatsRowWrites]
  rfl

theorem mem_procStatWrites (str : String) (line : List Char) (key tok name : String)
    (rest : List String) (v : Float64)
    (hline : line ∈ splitLines str.toList) (hf : fields line = key :: tok :: rest)
    (hname : procStatNames.lookup key = some name) (hv : ParseFloat tok = .ok v) :
    (name, v) ∈ procStatWrites str := by
  unfold procStatWrites
  refine List.mem_flatMap.mpr ⟨line, hline, ?_⟩
  simp [procStatLineWrites, hf, hname, hv]

theorem procStatWrites_names (str : String) :
    ∀ w ∈ procStatWrites str, w.1 ∈ ["interrupts", "context_switches", "forks"] := by
  intro w hw
  obtain ⟨line, _, hl⟩ := List.mem_flatMap.mp hw
  unfold procStatLineWrites at hl
  split at hl
  · rename_i key tok rest _
    split at hl
    · exact absurd hl (List.not_mem_nil _)
    · rename_i name hname
      split at hl
      · simp only [List.mem_singleton] at hl
        subst hl
        simp only [procStatNames, lookup_cons_ite, lookup_nil_eq] at hname
        split_ifs at hname <;> simp_all
      · exact absurd hl (List.not_mem_nil _)
  · exact absurd hl (List.not_mem_nil _)

theorem mem_diskstatsRowWrites (line : List Char) (device pfx tok : String)
    (col : Nat) (v : Float64) (hlen : 14 ≤ (fields line).length)
    (hdev : (fields line)[2]? = some device) (hcol : (pfx, col) ∈ diskstatsColumns)
    (htok : (fields line)[col]? = some tok) (hv : ParseFloat tok = .ok v) :
    (pfx ++ device, v) ∈ diskstatsRowWrites line := by
  unfold diskstatsRowWrites
  have hlen' : ¬ (fields line).length < 14 := by omega
  simp only [hlen', if_false, hdev]
  refine List.mem_flatMap.mpr ⟨(pfx, col), hcol, ?_⟩
  simp [htok, hv]

theorem mem_diskstatsWrites (str : String) (line : List Char) (device pfx tok : String)
    (col : Nat) (v : Float64)
    (hline : line ∈ splitLines str.toList) (hlen : 14 ≤ (fields line).length)
    (hdev : (fields line)[2]? = some device) (hcol : (pfx, col) ∈ diskstatsColumns)
    (htok : (fields line)[col]? = some tok) (hv : ParseFloat tok = .ok v) :
    (pfx ++ device, v) ∈ diskstatsWrites str :=
  List.mem_flatMap.mpr ⟨line, hline,
    mem_diskstatsRowWrites line device pfx tok col v hlen hdev hcol htok hv⟩

theorem diskstatsColumns_col_unique (pfx : String) (col col' : Nat)
    (h : (pfx, col) ∈ diskstatsColumns) (h' : (pfx, col') ∈ diskstatsColumns) :
    col = col' := by
  simp only [diskstatsColumns, List.mem_cons, Prod.mk.injEq, List.mem_singleton,
    List.not_mem_nil, or_false] at h h'
  rcases h with ⟨rfl, rfl⟩ | ⟨rfl, rfl⟩ | ⟨rfl, rfl⟩ | ⟨rfl, rfl⟩ <;>
    rcases h' with ⟨h1, rfl⟩ | ⟨h1, rfl⟩ | ⟨h1, rfl⟩ | ⟨h1, rfl⟩ <;>
    first | rfl | exact absurd h1 (by decide)

theorem diskstatsRowWrites_agree (line : List Char) (device pfx tok : String)
    (col : Nat) (v : Float64)
    (hdev : (fields line)[2]? = some device) (hcol : (pfx, col) ∈ diskstatsColumns)
    (htok : (fields line)[col]? = some tok) (hv : ParseFloat tok = .ok v) :
    ∀ w ∈ diskstatsRowWrites line, w.1 = pfx ++ device → w.2 = v := by
  intro w hw hname
  unfold diskstatsRowWrites at hw
  simp only at hw
  split_ifs at hw with hlen
  · exact absurd hw (List.not_mem_nil _)
  · simp only [hdev] at hw
    obtain ⟨c, hc, hwc⟩ := List.mem_flatMap.mp hw
    split at hwc
    · rename_i v' hv'
      simp only [List.mem_singleton] at hwc
      subst hwc
      simp only at hname
      have hp : c.1 = pfx := by
        have := congrArg String.data hname
        simp only [String.data_append] at this
        exact String.ext (List.append_cancel_right this)
      have hcc : (pfx, c.2) ∈ diskstatsColumns := by
        rw [← hp]
        exact hc
      have hcol' : c.2 = col := diskstatsColumns_col_unique pfx c.2 col hcc hcol
      rw [hcol', htok] at hv'
      simp only [Option.map_some', Option.some.injEq] at hv'
      rw [hv] at hv'
      exact (Except.ok.inj hv').symm
    · exact absurd hwc (List.not_mem_nil _)

theorem nodup_keys_applyWrites (ws : List (String × Float64)) :
    ∀ stat : Sample, (stat.map Prod.fst).Nodup →
      ((applyWrites ws stat).map Prod.fst).Nodup := by
  induction ws with
  | nil => intro stat h; exact h
  | cons w rest ih =>
    intro stat h
    exact ih _ (nodup_keys_mapSet w.1 w.2 stat h)

theorem lookup_isSome_of_mem {α : Type} (m : List (String × α)) (p : String × α)
    (hp : p ∈ m) : (m.lookup p.1).isSome = true := by
  induction m with
  | nil => exact absurd hp (List.not_mem_nil _)
  | cons q rest ih =>
    obtain ⟨k0, v0⟩ := q
    by_cases h : p.1 = k0
    · simp [lookup_cons_ite, h]
    · rcases List.mem_cons.mp hp with e | e
      · exact absurd (by rw [e]) h
      · simp [lookup_cons_ite, h, ih e]

/-! ## Lemmas on `parseProcVmstat` -/

theorem parseProcVmstat_eq (str : String) (stat : Sample) :
    parseProcVmstat str stat = .ok (applyWrites (procVmstatWrites str) stat) := by
  unfold parseProcVmstat procVmstatWrites
  rw [← foldl_applyWrites_eq procVmstatLineWrites]
  rfl

theorem procVmstatLineWrites_eq (line : List Char) (key tok : String) (rest : List String)
    (v : Float64) (hf : fields line = key :: tok :: rest) (hv : ParseFloat tok = .ok v) :
    procVmstatLineWrites line = [(key, v)] := by
  simp [procVmstatLineWrites, hf, hv]

/-! ## Lemmas on the two tables and on the results built from them -/

theorem lookup_parseStatusLoop (serverStatus : Doc) (k : String) :
    (parseStatusLoop serverStatus).1.lookup k =
      (metricPlace.lookup k).bind (resolved serverStatus) := by
  unfold parseStatusLoop
  rw [lookup_foldl_parseStatusStep serverStatus metricPlace ([], []) k metricPlace_keys_nodup]
  cases metricPlace.lookup k with
  | none => rfl
  | some path => cases hr : resolved serverStatus path <;> simp [hr, lookup_nil_eq]

theorem mem_of_lookup_eq_some {α : Type} (m : List (String × α)) (k : String) (v : α)
    (h : m.lookup k = some v) : (k, v) ∈ m := by
  induction m with
  | nil => simp [lookup_nil_eq] at h
  | cons p rest ih =>
    obtain ⟨k0, v0⟩ := p
    rw [lookup_cons_ite] at h
    by_cases hk : k = k0
    · simp only [hk, if_true, Option.some.injEq] at h
      rw [hk, h]
      exact List.mem_cons_self _ _
    · simp only [hk, if_false] at h
      exact List.mem_cons_of_mem _ (ih h)

theorem nodup_keys_foldl_graphDefinitionStep (serverStatus : Doc)
    (tbl : List (String × Graphs)) :
    ∀ g : List (String × Graphs), (g.map Prod.fst).Nodup →
      ((tbl.foldl (graphDefinitionStep serverStatus) g).map Prod.fst).Nodup := by
  induction tbl with
  | nil => intro g h; exact h
  | cons kv rest ih =>
    intro g h
    rw [List.foldl_cons]
    apply ih
    unfold graphDefinitionStep
    simp only
    split_ifs
    · exact nodup_keys_mapSet _ _ _ h
    · exact h

theorem nodup_keys_GraphDefinition_ok (serverStatus : Doc) :
    ((GraphDefinition (.ok serverStatus)).map Prod.fst).Nodup :=
  nodup_keys_foldl_graphDefinitionStep serverStatus graphdef [] List.nodup_nil

theorem mem_GraphDefinition_ok_iff (serverStatus : Doc) (k : String) (g : Graphs) :
    (k, g) ∈ GraphDefinition (.ok serverStatus) ↔
      ∃ v, (k, v) ∈ graphdef ∧ retained serverStatus v = some g := by
  constructor
  · intro h
    have hl := lookup_of_mem_of_nodup _ k g (nodup_keys_GraphDefinition_ok serverStatus) h
    rw [lookup_GraphDefinition_ok] at hl
    cases hv : graphdef.lookup k with
    | none => simp [hv] at hl
    | some v =>
      rw [hv] at hl
      exact ⟨v, mem_of_lookup_eq_some _ _ _ hv, hl⟩
  · rintro ⟨v, hv, hr⟩
    apply mem_of_lookup_eq_some
    rw [lookup_GraphDefinition_ok, lookup_of_mem_of_nodup _ k v graphdef_keys_nodup hv]
    exact hr

theorem retained_eq_some (serverStatus : Doc) (v g : Graphs)
    (h : retained serverStatus v = some g) :
    g = { v with Metrics := v.Metrics.filter (resolves serverStatus) } ∧
      v.Metrics.filter (resolves serverStatus) ≠ [] := by
  unfold retained at h
  split_ifs at h with hne
  exact ⟨(Option.some.inj h).symm, hne⟩

theorem catalog_names_have_paths :
    ∀ p ∈ graphdef, ∀ m ∈ p.2.Metrics,
      (metricPlace.lookup m.Name).isSome = true ∧ metricPlaceAt m.Name ≠ [] := by
  decide!

theorem metricPlace_keys_are_listed :
    ∀ kv ∈ metricPlace, ∃ p ∈ graphdef, ∃ m ∈ p.2.Metrics, m.Name = kv.1 := by
  decide!

theorem metricPlace_keys_in_one_group :
    ∀ kv ∈ metricPlace, groupsListing kv.1 = 1 := by
  decide!

/-! ## Lemmas on the rate computation -/

theorem mem_emitted_writes (kind : String → MetricKind) (sample : Sample) (now : Int)
    (baseline : Option PersistedBaseline) (w : String × Float64)
    (hw : w ∈ sample.filterMap (fun p =>
      (emitFor kind sample now baseline p.1).map (fun r => (p.1, r)))) :
    emitFor kind sample now baseline w.1 = some w.2 := by
  obtain ⟨p, _, hp⟩ := List.mem_filterMap.mp hw
  cases he : emitFor kind sample now baseline p.1 with
  | none => simp [he] at hp
  | some r =>
    simp only [he, Option.map_some', Option.some.injEq] at hp
    subst hp
    exact he

theorem lookup_emitted (kind : String → MetricKind) (sample : Sample) (now : Int)
    (baseline : Option PersistedBaseline) (name : String) :
    (diffEngine kind sample now baseline).emitted.lookup name =
      emitFor kind sample now baseline name := by
  unfold diffEngine
  simp only
  cases he : emitFor kind sample now baseline name with
  | none =>
    rw [lookup_applyWrites_of_not_mem]
    · rfl
    · intro hmem
      obtain ⟨w, hw, rfl⟩ := List.mem_map.mp hmem
      have := mem_emitted_writes kind sample now baseline w hw
      rw [he] at this
      cases this
  | some v =>
    have hag : ∀ w ∈ sample.filterMap (fun p =>
        (emitFor kind sample now baseline p.1).map (fun r => (p.1, r))),
        w.1 = name → w.2 = v := by
      intro w hw hn
      have := mem_emitted_writes kind sample now baseline w hw
      rw [hn, he] at this
      exact (Option.some.inj this).symm
    rw [lookup_applyWrites_of_agree _ name v [] hag]
    have hmem : name ∈ (sample.filterMap (fun p =>
        (emitFor kind sample now baseline p.1).map (fun r => (p.1, r)))).map Prod.fst := by
      cases hs : sample.lookup name with
      | none => simp [emitFor, hs] at he
      | some cur =>
        refine List.mem_map.mpr ⟨(name, v), ?_, rfl⟩
        refine List.mem_filterMap.mpr ⟨(name, cur), mem_of_lookup_eq_some _ _ _ hs, ?_⟩
        simp [he]
    simp [hmem]

/-! ## The path resolver: claims C1, C2, C3, C7 -/

/-- C1: for every status document and every non-empty key path `pre ++ [k]` in which
each key of `pre` resolves to a nested map and the last key `k` holds a numeric leaf
(a 64-bit integer or a `float64`), `getFloatValue` returns that leaf's value as a
`float64` together with no error. -/
theorem getFloatValue_numeric_leaf (s m : Doc) (pre : List String) (k : String)
    (v : Value) (f : Float64)
    (hm : resolveMaps s pre = some m) (hl : m.lookup k = some v)
    (hv : v.asNumber = some f) :
    getFloatValue s (pre ++ [k]) = .ok f := by
  rw [getFloatValue_final s m pre k v hm hl, parseFloatSprint_of_asNumber v f hv]

/-- Witness of C1: resolving `["a","b","c"]` against `{a: {b: {c: 42}}}` yields `42`. -/
theorem getFloatValue_numeric_leaf_witness :
    resolveMaps [("a", .doc [("b", .doc [("c", .int 42)])])] ["a", "b"]
        = some [("c", .int 42)] ∧
      (Value.int 42).asNumber = some (Float64.ofNat 42) ∧
      (Float64.ofNat 42).natValue? = some 42 ∧
      getFloatValue [("a", .doc [("b", .doc [("c", .int 42)])])] ["a", "b", "c"]
        = .ok (Float64.ofNat 42) :=
  ⟨rfl, rfl, rfl,
    getFloatValue_numeric_leaf [("a", .doc [("b", .doc [("c", .int 42)])])]
      [("c", .int 42)] ["a", "b"] "c" (.int 42) (Float64.ofNat 42) rfl rfl rfl⟩

/-- C2: `getFloatValue` fails with `KeyNotFound(k)` exactly when the path splits as
`pre ++ k :: rest` where every key of `pre` resolves to a nested map and `k` is absent
from the map they reach, at any depth; resolving `["a","x"]` against `{a: {b: 1}}`
fails with `KeyNotFound("x")`. -/
theorem getFloatValue_keyNotFound_iff :
    (∀ (s : Doc) (keys : List String) (k : String),
      getFloatValue s keys = .error (.keyNotFound k) ↔
        ∃ pre rest m, keys = pre ++ k :: rest ∧ resolveMaps s pre = some m ∧
          m.lookup k = none) ∧
    getFloatValue [("a", .doc [("b", .int 1)])] ["a", "x"] = .error (.keyNotFound "x") := by
  refine ⟨fun s keys k => ⟨getFloatValueLoop_keyNotFound keys s _ k, ?_⟩, rfl⟩
  rintro ⟨pre, rest, m, rfl, hm, hn⟩
  unfold getFloatValue
  rw [getFloatValueLoop_through_maps pre s m _ (k :: rest) hm (by simp)]
  simp [getFloatValueLoop, hn]

/-- C3 as stated fails: resolving `["a","b","c"]` against `{a: {b: 1}}` fails with the
error that names `"b"`, the key whose value is the scalar, and not `"c"`. -/
theorem getFloatValue_scalar_names_own_key :
    getFloatValue [("a", .doc [("b", .int 1)])] ["a", "b", "c"]
        = .error (.hashError "b") ∧
      getFloatValue [("a", .doc [("b", .int 1)])] ["a", "b", "c"]
        ≠ .error (.hashError "c") := by
  decide

/-- C3 amended: when the keys of `pre` resolve to nested maps, `k` is present with a value
that is not a nested map, and keys remain after `k`, `getFloatValue` fails with the
error `hashError k` ("Cannot handle as a hash for k"), which names `k` itself and
is not a `KeyNotFound`. -/
theorem getFloatValue_hashError (s m : Doc) (pre rest : List String) (k : String)
    (v : Value)
    (hm : resolveMaps s pre = some m) (hl : m.lookup k = some v)
    (hv : v.isDoc = false) (hrest : rest ≠ []) :
    getFloatValue s (pre ++ k :: rest) = .error (.hashError k) ∧
      (Err.hashError k).isKeyNotFound = false := by
  refine ⟨?_, rfl⟩
  unfold getFloatValue
  rw [getFloatValueLoop_through_maps pre s m _ (k :: rest) hm (by simp)]
  cases v <;> simp_all [getFloatValueLoop, Value.isDoc]

/-- Witness of the amended C3: `["a","b","c"]` against `{a: {b: 1}}` names `"b"`. -/
theorem getFloatValue_hashError_witness :
    getFloatValue [("a", .doc [("b", .int 1)])] (["a"] ++ "b" :: ["c"])
        = .error (.hashError "b") ∧
      (Err.hashError "b").isKeyNotFound = false :=
  getFloatValue_hashError [("a", .doc [("b", .int 1)])] [("b", .int 1)] ["a"] ["c"] "b"
    (.int 1) rfl rfl rfl (by decide)

/-- C7: on the final key the leaf is coerced by `strconv.ParseFloat(fmt.Sprint(v), 64)`.
A numeric leaf comes back as its own value; a string of decimal digits comes back as
the number it denotes, and so does every string that `ParseFloat` accepts; every
other leaf, a nested map included, fails with the `ParseFloat` error, which is not a
`KeyNotFound`. -/
theorem getFloatValue_final_coercion (s m : Doc) (pre : List String) (k : String)
    (v : Value)
    (hm : resolveMaps s pre = some m) (hl : m.lookup k = some v) :
    (∀ f, v.asNumber = some f → getFloatValue s (pre ++ [k]) = .ok f) ∧
      (∀ ds : List Char, ds ≠ [] → (∀ d ∈ ds, isDigit d = true) →
        digitsValue ds < 2 ^ 64 → v = .str (String.mk ds) →
        getFloatValue s (pre ++ [k]) = .ok (Float64.ofNat (digitsValue ds))) ∧
      (∀ t f, v = .str t → ParseFloat t = .ok f →
        getFloatValue s (pre ++ [k]) = .ok f) ∧
      (v.asNumber = none → (∀ f, parseFloatSprint v ≠ .ok f) →
        ∃ e, getFloatValue s (pre ++ [k]) = .error (.numError e) ∧
          (Err.numError e).isKeyNotFound = false) ∧
      (v.isDoc = true →
        getFloatValue s (pre ++ [k]) = .error (.numError .errSyntax)) := by
  rw [getFloatValue_final s m pre k v hm hl]
  refine ⟨?_, ?_, ?_, ?_, ?_⟩
  · intro f hf
    rw [parseFloatSprint_of_asNumber v f hf]
  · rintro ds hne hd hlt rfl
    have : parseFloatSprint (.str (String.mk ds)) = .ok (Float64.ofNat (digitsValue ds)) :=
      parseFloatChars_of_digits ds hne hd hlt
    rw [this]
  · rintro t f rfl ht
    simp [parseFloatSprint, ht]
  · intro _ hno
    cases hp : parseFloatSprint v with
    | ok f => exact absurd hp (hno f)
    | error e => exact ⟨e, rfl, rfl⟩
  · intro hd
    cases v <;> simp_all [Value.isDoc, parseFloatSprint]

/-- Witness of C7: under the final key `"a"` the string `"42"` yields `42`, the string
`"abc"` and a nested map fail with a `ParseFloat` error. -/
theorem getFloatValue_final_coercion_witness :
    digitsValue "42".toList = 42 ∧ (Float64.ofNat 42).natValue? = some 42 ∧
      getFloatValue [("a", .str "42")] ["a"] = .ok (Float64.ofNat (digitsValue "42".toList)) ∧
      (∃ e, getFloatValue [("a", .str "abc")] ["a"] = .error (.numError e) ∧
        (Err.numError e).isKeyNotFound = false) ∧
      getFloatValue [("a", .doc [("b", .int 1)])] ["a"]
        = .error (.numError .errSyntax) :=
  ⟨rfl, rfl,
    (getFloatValue_final_coercion [("a", .str "42")] [("a", .str "42")] [] "a"
      (.str "42") rfl rfl).2.1 "42".toList (by decide) (by decide) (by decide) rfl,
    (getFloatValue_final_coercion [("a", .str "abc")] [("a", .str "abc")] [] "a"
      (.str "abc") rfl rfl).2.2.2.1 rfl
      (fun f h => by
        rw [show parseFloatSprint (Value.str "abc") = .error .errSyntax from by decide] at h
        cases h),
    (getFloatValue_final_coercion [("a", .doc [("b", .int 1)])]
      [("a", .doc [("b", .int 1)])] [] "a" (.doc [("b", .int 1)]) rfl rfl).2.2.2.2 rfl⟩

/-! ## `parseStatus`, `GraphDefinition`, the tempfile basename: claims C4, C5, C6 -/

/-- C4: for every status document `parseStatus` returns no error, and its result has an
entry for metric name `k` exactly when the path `metricPlace[k]` resolves through
`getFloatValue` without error, the entry being the resolved value; so a metric whose
path fails is skipped and no other metric's entry depends on it. -/
theorem parseStatus_entries (serverStatus : Doc) :
    ∃ stat, parseStatus serverStatus = .ok stat ∧
      ∀ (k : String) (val : Float64),
        stat.lookup k = some val ↔
          ∃ path, metricPlace.lookup k = some path ∧
            getFloatValue serverStatus path = .ok val := by
  refine ⟨_, rfl, fun k val => ?_⟩
  unfold parseStatusLoop
  rw [lookup_foldl_parseStatusStep serverStatus metricPlace ([], []) k
    metricPlace_keys_nodup]
  cases hk : metricPlace.lookup k with
  | none => simp [lookup_nil_eq]
  | some path =>
    cases hr : resolved serverStatus path with
    | none =>
      have hn : ¬ getFloatValue serverStatus path = .ok val := by
        rw [← resolved_eq_some, hr]; simp
      simp [lookup_nil_eq, hn, hr]
    | some w => simp [← resolved_eq_some, hr]

/-- C5: for every fetched status document, the result of `GraphDefinition` contains a
catalog group exactly when at least one of the group's metrics resolves against the
document (`getFloatValue` on its `metricPlace` path succeeds), and no group of the
result has an empty metric list. -/
theorem GraphDefinition_groups (serverStatus : Doc) :
    (∀ k : String,
      (∃ g, (GraphDefinition (.ok serverStatus)).lookup k = some g) ↔
        ∃ v, graphdef.lookup k = some v ∧
          ∃ m ∈ v.Metrics, ∃ val,
            getFloatValue serverStatus (metricPlaceAt m.Name) = .ok val) ∧
    (∀ p ∈ GraphDefinition (.ok serverStatus), p.2.Metrics ≠ []) := by
  refine ⟨fun k => ?_, ?_⟩
  · rw [lookup_GraphDefinition_ok]
    cases hk : graphdef.lookup k with
    | none => simp
    | some v =>
      simp only [Option.some_bind, Option.some.injEq, exists_eq_left']
      unfold retained
      by_cases he : v.Metrics.filter (resolves serverStatus) = []
      · simp only [he, ne_eq, not_true_eq_false, if_false]
        refine ⟨fun ⟨g, hg⟩ => (by cases hg), ?_⟩
        rintro ⟨m, hm, val, hval⟩
        have : m ∈ v.Metrics.filter (resolves serverStatus) :=
          List.mem_filter.mpr ⟨hm, (resolves_iff serverStatus m).mpr ⟨val, hval⟩⟩
        rw [he] at this
        exact absurd this (List.not_mem_nil m)
      · simp only [he, ne_eq, not_false_eq_true, if_true]
        refine ⟨fun _ => ?_, fun _ => ⟨_, rfl⟩⟩
        obtain ⟨m, hm⟩ := List.exists_mem_of_ne_nil _ he
        obtain ⟨hmem, hres⟩ := List.mem_filter.mp hm
        exact ⟨m, hmem, (resolves_iff serverStatus m).mp hres⟩
  · exact mem_foldl_graphDefinitionStep serverStatus graphdef []
      (fun p hp => absurd hp (List.not_mem_nil p))

/-- C6 as stated fails: with no explicit tempfile the configurations
(`db-1`, `27017`) and (`db`, `1-27017`) differ and yet `Do` derives the same
basename for both, hence the same persisted state. -/
theorem Do_basename_collision :
    (("db-1", "27017") : String × String) ≠ ("db", "1-27017") ∧
      tempfileBasename "db-1" "27017" = "mackerel-plugin-mongodb-db-1-27017" ∧
      tempfileBasename "db" "1-27017" = "mackerel-plugin-mongodb-db-1-27017" ∧
      (Do "db-1" "27017" "" "" false "").tempfile =
        (Do "db" "1-27017" "" "" false "").tempfile := by
  decide

/-- C6 amended: with no explicit tempfile, two configurations whose ports contain no
`-` (as every numeric port) and that differ in host or port get different basenames
from `Do`, so they do not share persisted state. -/
theorem Do_basename_injective (host₁ port₁ host₂ port₂ user₁ pass₁ user₂ pass₂ : String)
    (verbose₁ verbose₂ : Bool)
    (h₁ : '-' ∉ port₁.data) (h₂ : '-' ∉ port₂.data)
    (hne : (host₁, port₁) ≠ (host₂, port₂)) :
    tempfileBasename host₁ port₁ ≠ tempfileBasename host₂ port₂ ∧
      (Do host₁ port₁ user₁ pass₁ verbose₁ "").tempfile ≠
        (Do host₂ port₂ user₂ pass₂ verbose₂ "").tempfile := by
  have key : tempfileBasename host₁ port₁ ≠ tempfileBasename host₂ port₂ := by
    intro h
    have hd := congrArg String.data h
    rw [tempfileBasename_data, tempfileBasename_data] at hd
    obtain ⟨hh, hp⟩ := append_sep_inj '-' _ _ _ _ h₁ h₂ (List.append_cancel_left hd)
    exact hne (by rw [String.ext hh, String.ext hp])
  refine ⟨key, fun h => key ?_⟩
  simpa [Do] using h

/-- Witness of the amended C6: the default `localhost:27017` and `localhost:27018`. -/
theorem Do_basename_injective_witness :
    tempfileBasename "localhost" "27017" ≠ tempfileBasename "localhost" "27018" ∧
      (Do "localhost" "27017" "" "" false "").tempfile ≠
        (Do "localhost" "27018" "" "" false "").tempfile :=
  Do_basename_injective "localhost" "27017" "localhost" "27018" "" "" "" "" false false
    (by decide) (by decide) (by decide)

/-! ## The text extractors: claims C8, C9, C10 -/

/-- C8: for every well-formed flat counter text (no counter is given by two lines),
`parseProcStat` returns no error; a line whose key is `intr`, `ctxt` or `processes`
sets the metric `interrupts`, `context_switches` or `forks` to the number in the
token right after the key, whatever tokens follow it; and names other than these
three keep the value they had, so lines with other keys are ignored. -/
theorem parseProcStat_counters (str : String) (stat : Sample) (line : List Char)
    (key tok name : String) (rest : List String) (v : Float64)
    (hwf : ((procStatWrites str).map Prod.fst).Nodup)
    (hline : line ∈ splitLines str.toList) (hf : fields line = key :: tok :: rest)
    (hname : procStatNames.lookup key = some name) (hv : ParseFloat tok = .ok v) :
    (∀ st : Sample, (parseProcStatLine st line).lookup name = some v) ∧
      ∃ out, parseProcStat str stat = .ok out ∧ out.lookup name = some v ∧
        ∀ n, n ∉ ["interrupts", "context_switches", "forks"] →
          out.lookup n = stat.lookup n := by
  refine ⟨fun st => ?_, _, parseProcStat_eq str stat, ?_, fun n hn => ?_⟩
  · have hw : procStatLineWrites line = [(name, v)] := by
      simp [procStatLineWrites, hf, hname, hv]
    unfold parseProcStatLine
    rw [hw]
    simp [applyWrites, lookup_mapSet]
  · exact lookup_applyWrites_of_mem _ stat name v hwf
      (mem_procStatWrites str line key tok name rest v hline hf hname hv)
  · apply lookup_applyWrites_of_not_mem
    intro hmem
    obtain ⟨w, hw, rfl⟩ := List.mem_map.mp hmem
    exact hn (procStatWrites_names str w hw)

/-- Witness of C8: on the stub of `TestParseProcStat` the three counters are
`interrupts = 614818624`, `context_switches = 879305394` and `forks = 1959410`;
the `btime` line leaves no entry. -/
theorem parseProcStat_counters_witness :
    ((procStatWrites procStatStub).map Prod.fst).Nodup ∧
      (Float64.ofNat 614818624).natValue? = some 614818624 ∧
      (Float64.ofNat 879305394).natValue? = some 879305394 ∧
      (Float64.ofNat 1959410).natValue? = some 1959410 ∧
      parseProcStat procStatStub [] = .ok
        [("interrupts", Float64.ofNat 614818624),
          ("context_switches", Float64.ofNat 879305394),
          ("forks", Float64.ofNat 1959410)] ∧
      (∃ out, parseProcStat procStatStub [] = .ok out ∧
        out.lookup "interrupts" = some (Float64.ofNat 614818624) ∧
        ∀ n, n ∉ ["interrupts", "context_switches", "forks"] → out.lookup n = none) ∧
      (∃ out, parseProcStat procStatStub [] = .ok out ∧
        out.lookup "context_switches" = some (Float64.ofNat 879305394) ∧
        ∀ n, n ∉ ["interrupts", "context_switches", "forks"] → out.lookup n = none) ∧
      (∃ out, parseProcStat procStatStub [] = .ok out ∧
        out.lookup "forks" = some (Float64.ofNat 1959410) ∧
        ∀ n, n ∉ ["interrupts", "context_switches", "forks"] → out.lookup n = none) :=
  ⟨by decide!, by decide!, by decide!, by decide!, by decide!,
    (parseProcStat_counters procStatStub []
      ((splitLines procStatStub.toList).getD 0 []) "intr" "614818624" "interrupts"
      ((fields ((splitLines procStatStub.toList).getD 0 [])).drop 2)
      (Float64.ofNat 614818624) (by decide!) (by decide!) (by decide!) (by decide!)
      (by decide!)).2,
    (parseProcStat_counters procStatStub []
      ((splitLines procStatStub.toList).getD 1 []) "ctxt" "879305394" "context_switches"
      [] (Float64.ofNat 879305394) (by decide!) (by decide!) (by decide!) (by decide!)
      (by decide!)).2,
    (parseProcStat_counters procStatStub []
      ((splitLines procStatStub.toList).getD 3 []) "processes" "1959410" "forks"
      [] (Float64.ofNat 1959410) (by decide!) (by decide!) (by decide!) (by decide!)
      (by decide!)).2⟩

/-- Two rows of a device table may yield one metric name: `iotime_weighted_` of device
`x` and `iotime_` of device `weighted_x` are both `iotime_weighted_x`, and the row
handled last decides the value. -/
theorem parseProcDiskstats_shared_name :
    "iotime_weighted_" ++ "x" = "iotime_" ++ "weighted_x" ∧
      ∃ out, parseProcDiskstats
          ("8 0 x 1 2 3 4 5 6 7 8 9 10 11\n" ++
            "8 1 weighted_x 21 22 23 24 25 26 27 28 29 30 31") [] = .ok out ∧
        out.lookup "iotime_weighted_x" = some (Float64.ofNat 30) := by
  refine ⟨by decide!, _, rfl, by decide!⟩

/-- C9: for every device-table text `parseProcDiskstats` returns no error, and each row
with all 14 columns and device name `d` at position 2 sets `iotime_d`,
`iotime_weighted_d`, `tsreading_d` and `tswriting_d` to the numbers in the row's
columns 12, 13, 6 and 10: handling the row stores them whatever the map held before,
and they are the values of the result unless another row stores a different value
under the same name. -/
theorem parseProcDiskstats_rows (str : String) (stat : Sample) (line : List Char)
    (device pfx tok : String) (col : Nat) (v : Float64)
    (hline : line ∈ splitLines str.toList) (hlen : 14 ≤ (fields line).length)
    (hdev : (fields line)[2]? = some device) (hcol : (pfx, col) ∈ diskstatsColumns)
    (htok : (fields line)[col]? = some tok) (hv : ParseFloat tok = .ok v) :
    (∀ st : Sample, (parseProcDiskstatsRow st line).lookup (pfx ++ device) = some v) ∧
      ∃ out, parseProcDiskstats str stat = .ok out ∧
        ((∀ w ∈ diskstatsWrites str, w.1 = pfx ++ device → w.2 = v) →
          out.lookup (pfx ++ device) = some v) := by
  have hrow := mem_diskstatsRowWrites line device pfx tok col v hlen hdev hcol htok hv
  refine ⟨fun st => ?_, _, parseProcDiskstats_eq str stat, fun hag => ?_⟩
  · unfold parseProcDiskstatsRow
    rw [lookup_applyWrites_of_agree _ _ v st
      (diskstatsRowWrites_agree line device pfx tok col v hdev hcol htok hv)]
    have : pfx ++ device ∈ (diskstatsRowWrites line).map Prod.fst :=
      List.mem_map.mpr ⟨_, hrow, rfl⟩
    simp [this]
  · rw [lookup_applyWrites_of_agree _ _ v stat hag]
    have : pfx ++ device ∈ (diskstatsWrites str).map Prod.fst :=
      List.mem_map.mpr ⟨_, List.mem_flatMap.mpr ⟨line, hline, hrow⟩, rfl⟩
    simp [this]

/-- Witness of C9: on the stub of `TestParseProcDiskstats` the row of `sda` gives
`iotime_sda = 23865772`, `iotime_weighted_sda = 436201338`,
`tsreading_sda = 12441261` and `tswriting_sda = 423711425`. -/
theorem parseProcDiskstats_rows_witness :
    (∃ out, parseProcDiskstats procDiskstatsStub [] = .ok out ∧
        out.lookup "iotime_sda" = some (Float64.ofNat 23865772) ∧
        out.lookup "iotime_weighted_sda" = some (Float64.ofNat 436201338) ∧
        out.lookup "tsreading_sda" = some (Float64.ofNat 12441261) ∧
        out.lookup "tswriting_sda" = some (Float64.ofNat 423711425)) ∧
      (Float64.ofNat 23865772).natValue? = some 23865772 ∧
      (Float64.ofNat 436201338).natValue? = some 436201338 ∧
      (Float64.ofNat 12441261).natValue? = some 12441261 ∧
      (Float64.ofNat 423711425).natValue? = some 423711425 ∧
      (∀ st : Sample,
        (parseProcDiskstatsRow st ((splitLines procDiskstatsStub.toList).getD 1 [])).lookup
          ("iotime_" ++ "sda") = some (Float64.ofNat 23865772)) ∧
      (∀ st : Sample,
        (parseProcDiskstatsRow st ((splitLines procDiskstatsStub.toList).getD 1 [])).lookup
          ("iotime_weighted_" ++ "sda") = some (Float64.ofNat 436201338)) ∧
      (∀ st : Sample,
        (parseProcDiskstatsRow st ((splitLines procDiskstatsStub.toList).getD 1 [])).lookup
          ("tsreading_" ++ "sda") = some (Float64.ofNat 12441261)) ∧
      (∀ st : Sample,
        (parseProcDiskstatsRow st ((splitLines procDiskstatsStub.toList).getD 1 [])).lookup
          ("tswriting_" ++ "sda") = some (Float64.ofNat 423711425)) :=
  ⟨⟨_, rfl, by decide!, by decide!, by decide!, by decide!⟩,
    by decide!, by decide!, by decide!, by decide!,
    (parseProcDiskstats_rows procDiskstatsStub []
      ((splitLines procDiskstatsStub.toList).getD 1 []) "sda" "iotime_" "23865772" 12
      (Float64.ofNat 23865772) (by decide!) (by decide!) (by decide!) (by decide!)
      (by decide!) (by decide!)).1,
    (parseProcDiskstats_rows procDiskstatsStub []
      ((splitLines procDiskstatsStub.toList).getD 1 []) "sda" "iotime_weighted_"
      "436201338" 13 (Float64.ofNat 436201338) (by decide!) (by decide!) (by decide!)
      (by decide!) (by decide!) (by decide!)).1,
    (parseProcDiskstats_rows procDiskstatsStub []
      ((splitLines procDiskstatsStub.toList).getD 1 []) "sda" "tsreading_" "12441261" 6
      (Float64.ofNat 12441261) (by decide!) (by decide!) (by decide!) (by decide!)
      (by decide!) (by decide!)).1,
    (parseProcDiskstats_rows procDiskstatsStub []
      ((splitLines procDiskstatsStub.toList).getD 1 []) "sda" "tswriting_" "423711425" 10
      (Float64.ofNat 423711425) (by decide!) (by decide!) (by decide!) (by decide!)
      (by decide!) (by decide!)).1⟩

/-- C10: for every `ss` output made of a header line followed by connection rows,
`parseSs` returns no error and the sample maps each leading state label to the number
of rows that begin with it (as a `float64`, exact below `2^53`) and holds no other
entry, one entry per label; the header is not counted, and zero rows give the empty
sample. -/
theorem parseSs_counts (str : String) (header : List Char) (rows : List (List Char))
    (hshape : splitLines str.toList = header :: rows) :
    ∃ out, parseSs str [] = .ok out ∧
      (∀ label, out.lookup label =
        if countLabel label rows = 0 then none
        else some (Float64.ofNat (countLabel label rows))) ∧
      (∀ label, 0 < countLabel label rows → countLabel label rows < 2 ^ 53 →
        ∃ f, out.lookup label = some f ∧ f.natValue? = some (countLabel label rows)) ∧
      (out.map Prod.fst).Nodup ∧
      (∀ label ∈ out.map Prod.fst, 0 < countLabel label rows) ∧
      (rows = [] → out = []) := by
  have hrows : ssRows str = rows := by unfold ssRows; rw [hshape]; rfl
  have hnd : (((tally rows).map (fun p => (p.1, Float64.ofNat p.2))).map Prod.fst).Nodup := by
    rw [keys_map_snd]
    exact nodup_keys_tally rows
  have hlook : ∀ label,
      (applyWrites ((tally rows).map (fun p => (p.1, Float64.ofNat p.2))) []).lookup label =
        if countLabel label rows = 0 then none
        else some (Float64.ofNat (countLabel label rows)) := by
    intro label
    rw [lookup_applyWrites _ [] label hnd, lookup_map_snd, lookup_tally]
    by_cases hc : countLabel label rows = 0 <;> simp [hc, lookup_nil_eq]
  refine ⟨_, by unfold parseSs; rw [hrows], hlook, ?_, ?_, ?_, ?_⟩
  · intro label hpos hlt
    refine ⟨Float64.ofNat (countLabel label rows), ?_, Float64.natValue_ofNat _ hlt⟩
    rw [hlook label, if_neg (by omega)]
  · exact nodup_keys_applyWrites _ [] List.nodup_nil
  · intro label hmem
    have hl := hlook label
    by_cases hc : countLabel label rows = 0
    · rw [if_pos hc] at hl
      obtain ⟨p, hp, rfl⟩ := List.mem_map.mp hmem
      have := lookup_isSome_of_mem _ p hp
      rw [hl] at this
      exact absurd this (by simp)
    · omega
  · rintro rfl
    rfl

/-- Witness of C10: on the stub of `TestParseSs` the sample is exactly
`LISTEN: 2, TIME-WAIT: 1, ESTAB: 1`. -/
theorem parseSs_counts_witness :
    parseSs ssStub [] = .ok
        [("LISTEN", Float64.ofNat 2), ("TIME-WAIT", Float64.ofNat 1),
          ("ESTAB", Float64.ofNat 1)] ∧
      parseSs "" [] = .ok [] ∧
      ∃ out, parseSs ssStub [] = .ok out ∧
        (∀ label, out.lookup label =
          if countLabel label (splitLines ssStub.toList).tail = 0 then none
          else some (Float64.ofNat (countLabel label (splitLines ssStub.toList).tail))) ∧
        (∀ label, 0 < countLabel label (splitLines ssStub.toList).tail →
          countLabel label (splitLines ssStub.toList).tail < 2 ^ 53 →
          ∃ f, out.lookup label = some f ∧
            f.natValue? = some (countLabel label (splitLines ssStub.toList).tail)) ∧
        (out.map Prod.fst).Nodup ∧
        (∀ label ∈ out.map Prod.fst, 0 < countLabel label (splitLines ssStub.toList).tail) ∧
        ((splitLines ssStub.toList).tail = [] → out = []) :=
  ⟨by decide!, by decide!,
    parseSs_counts ssStub ((splitLines ssStub.toList).headD [])
      (splitLines ssStub.toList).tail (by decide!)⟩

/-! ## `parseWho` and `parseProcVmstat`: claims C11, C12 -/

/-- C11: for every session-line text `parseWho` returns no error and sets the single
metric `users` to the number of non-empty lines of the text, leaving every other name
as it was; the count is `0` for the empty text and `3` for the three lines of the
stub of `TestParseWho`. -/
theorem parseWho_users :
    (∀ (str : String) (stat : Sample),
      ∃ out, parseWho str stat = .ok out ∧
        out.lookup "users" = some (Float64.ofNat (countNonEmptyLines str)) ∧
        (countNonEmptyLines str < 2 ^ 53 →
          ∃ f, out.lookup "users" = some f ∧
            f.natValue? = some (countNonEmptyLines str)) ∧
        ∀ name, name ≠ "users" → out.lookup name = stat.lookup name) ∧
      countNonEmptyLines "" = 0 ∧
      parseWho "" [] = .ok [("users", Float64.ofNat 0)] ∧
      (Float64.ofNat 0).natValue? = some 0 ∧
      countNonEmptyLines whoStub = 3 ∧
      parseWho whoStub [] = .ok [("users", Float64.ofNat 3)] ∧
      (Float64.ofNat 3).natValue? = some 3 := by
  refine ⟨fun str stat => ⟨_, rfl, ?_, ?_, ?_⟩, by decide!, by decide!, by decide!,
    by decide!, by decide!, by decide!⟩
  · simp [lookup_mapSet]
  · intro hlt
    exact ⟨_, by simp [lookup_mapSet], Float64.natValue_ofNat _ hlt⟩
  · intro name hne
    simp [lookup_mapSet, hne]

/-- C12: for every text and each of its lines of the form `<key> <number>`,
`parseProcVmstat` returns no error and maps the key to the number that follows it on
the line: handling the line stores it whatever the map held before, and it is the
value of the result unless another line stores a different number under the same
key; names that no line gives are left as they were. -/
theorem parseProcVmstat_keys (str : String) (stat : Sample) (line : List Char)
    (key tok : String) (v : Float64)
    (hline : line ∈ splitLines str.toList) (hf : fields line = [key, tok])
    (hv : ParseFloat tok = .ok v) :
    (∀ st : Sample, (parseProcVmstatLine st line).lookup key = some v) ∧
      ∃ out, parseProcVmstat str stat = .ok out ∧
        ((∀ w ∈ procVmstatWrites str, w.1 = key → w.2 = v) →
          out.lookup key = some v) ∧
        ∀ n, n ∉ (procVmstatWrites str).map Prod.fst → out.lookup n = stat.lookup n := by
  have hw := procVmstatLineWrites_eq line key tok [] v hf hv
  refine ⟨fun st => ?_, _, parseProcVmstat_eq str stat, fun hag => ?_, fun n hn => ?_⟩
  · unfold parseProcVmstatLine
    rw [hw]
    simp [applyWrites, lookup_mapSet]
  · rw [lookup_applyWrites_of_agree _ _ v stat hag]
    have : key ∈ (procVmstatWrites str).map Prod.fst :=
      List.mem_map.mpr ⟨(key, v), List.mem_flatMap.mpr ⟨line, hline, by rw [hw]; simp⟩, rfl⟩
    simp [this]
  · exact lookup_applyWrites_of_not_mem _ stat n hn

/-- Witness of C12: on the stub of `TestParseProcVmstat` the sample is `pgpgin = 770294`,
`pgpgout = 31351354`, `pswpin = 0` and `pswpout = 113`, each line storing its own
number. -/
theorem parseProcVmstat_keys_witness :
    parseProcVmstat procVmstatStub [] = .ok
        [("pgpgin", Float64.ofNat 770294), ("pgpgout", Float64.ofNat 31351354),
          ("pswpin", Float64.ofNat 0), ("pswpout", Float64.ofNat 113)] ∧
      (Float64.ofNat 770294).natValue? = some 770294 ∧
      (Float64.ofNat 31351354).natValue? = some 31351354 ∧
      (Float64.ofNat 0).natValue? = some 0 ∧
      (Float64.ofNat 113).natValue? = some 113 ∧
      (∀ st : Sample,
        (parseProcVmstatLine st "pgpgin 770294".toList).lookup "pgpgin"
          = some (Float64.ofNat 770294)) ∧
      (∀ st : Sample,
        (parseProcVmstatLine st "pgpgout 31351354".toList).lookup "pgpgout"
          = some (Float64.ofNat 31351354)) ∧
      (∀ st : Sample,
        (parseProcVmstatLine st "pswpin 0".toList).lookup "pswpin"
          = some (Float64.ofNat 0)) ∧
      (∀ st : Sample,
        (parseProcVmstatLine st "pswpout 113".toList).lookup "pswpout"
          = some (Float64.ofNat 113)) :=
  ⟨by decide!, by decide!, by decide!, by decide!, by decide!,
    (parseProcVmstat_keys procVmstatStub [] "pgpgin 770294".toList "pgpgin" "770294"
      (Float64.ofNat 770294) (by decide!) (by decide!) (by decide!)).1,
    (parseProcVmstat_keys procVmstatStub [] "pgpgout 31351354".toList "pgpgout" "31351354"
      (Float64.ofNat 31351354) (by decide!) (by decide!) (by decide!)).1,
    (parseProcVmstat_keys procVmstatStub [] "pswpin 0".toList "pswpin" "0"
      (Float64.ofNat 0) (by decide!) (by decide!) (by decide!)).1,
    (parseProcVmstat_keys procVmstatStub [] "pswpout 113".toList "pswpout" "113"
      (Float64.ofNat 113) (by decide!) (by decide!) (by decide!)).1⟩

/-! ## The rate computation: claims C13, C14 -/

/-- C13: for every counter metric present in the current sample, with `elapsed` the
current timestamp minus the baseline's: when the baseline has the metric,
`elapsed > 0` and `delta = current - baseline` is not negative, the run emits exactly
`delta / elapsed`; when `elapsed <= 0` it emits nothing for the metric, so nothing is
divided by zero; and with no baseline it emits no counter at all. -/
theorem diffEngine_counter_rate (kind : String → MetricKind) (sample : Sample)
    (now : Int) (name : String) (cur : Float64)
    (hk : kind name = MetricKind.counter) (hs : sample.lookup name = some cur) :
    (∀ (b : PersistedBaseline) (base : Float64),
      b.sample.lookup name = some base → 0 < now - b.observedAt →
      (Float64.sub cur base).ltZero = false →
      (diffEngine kind sample now (some b)).emitted.lookup name =
        some (Float64.div (Float64.sub cur base) (Float64.ofInt (now - b.observedAt)))) ∧
      (∀ b : PersistedBaseline, now - b.observedAt ≤ 0 →
        (diffEngine kind sample now (some b)).emitted.lookup name = none) ∧
      (∀ n, kind n = MetricKind.counter →
        (diffEngine kind sample now none).emitted.lookup n = none) := by
  refine ⟨fun b base hb hpos hdelta => ?_, fun b hle => ?_, fun n hn => ?_⟩
  · have hnle : ¬ now - b.observedAt ≤ 0 := by omega
    rw [lookup_emitted]
    simp [emitFor, hs, diffMetric, hk, hb, hnle, hdelta]
  · rw [lookup_emitted]
    cases hb : b.sample.lookup name <;> simp [emitFor, hs, diffMetric, hk, hb, hle]
  · rw [lookup_emitted]
    cases hsn : sample.lookup n <;> simp [emitFor, hsn, diffMetric, hn]

/-- Witness of C13: a counter that went from `100` to `160` in `60` seconds is emitted as
`1`; with the same timestamp, or with no baseline, nothing is emitted. -/
theorem diffEngine_counter_rate_witness :
    Float64.div (Float64.sub (Float64.ofNat 160) (Float64.ofNat 100)) (Float64.ofInt 60)
        = Float64.ofNat 1 ∧
      (Float64.ofNat 1).natValue? = some 1 ∧
      (diffEngine (fun _ => MetricKind.counter) [("opcounters_insert", Float64.ofNat 160)]
          1060 (some ⟨[("opcounters_insert", Float64.ofNat 100)], 1000⟩)).emitted
        = [("opcounters_insert", Float64.ofNat 1)] ∧
      ((∀ (b : PersistedBaseline) (base : Float64),
        b.sample.lookup "opcounters_insert" = some base → 0 < 1060 - b.observedAt →
        (Float64.sub (Float64.ofNat 160) base).ltZero = false →
        (diffEngine (fun _ => MetricKind.counter)
            [("opcounters_insert", Float64.ofNat 160)] 1060 (some b)).emitted.lookup
            "opcounters_insert" =
          some (Float64.div (Float64.sub (Float64.ofNat 160) base)
            (Float64.ofInt (1060 - b.observedAt)))) ∧
        (∀ b : PersistedBaseline, 1060 - b.observedAt ≤ 0 →
          (diffEngine (fun _ => MetricKind.counter)
              [("opcounters_insert", Float64.ofNat 160)] 1060 (some b)).emitted.lookup
              "opcounters_insert" = none) ∧
        (∀ n, (fun _ => MetricKind.counter) n = MetricKind.counter →
          (diffEngine (fun _ => MetricKind.counter)
              [("opcounters_insert", Float64.ofNat 160)] 1060 none).emitted.lookup n
            = none)) :=
  ⟨by decide!, by decide!, by decide!,
    diffEngine_counter_rate (fun _ => MetricKind.counter)
      [("opcounters_insert", Float64.ofNat 160)] 1060 "opcounters_insert"
      (Float64.ofNat 160) rfl rfl⟩

/-- C14 (reset absorption): for every counter metric whose current value is lower than
its value in the persisted baseline (`delta < 0`), the run emits nothing for the
metric, the baseline it persists holds the current value and timestamp, and the run
after it computes the metric's rate from that lower value. -/
theorem diffEngine_reset_absorbed (kind : String → MetricKind) (sample : Sample)
    (now : Int) (name : String) (cur base : Float64) (b : PersistedBaseline)
    (hk : kind name = MetricKind.counter) (hs : sample.lookup name = some cur)
    (hb : b.sample.lookup name = some base)
    (hlow : (Float64.sub cur base).ltZero = true) :
    (diffEngine kind sample now (some b)).emitted.lookup name = none ∧
      (diffEngine kind sample now (some b)).baseline.sample.lookup name = some cur ∧
      (diffEngine kind sample now (some b)).baseline.observedAt = now ∧
      (runStep kind sample now (some b)).2 =
        some (diffEngine kind sample now (some b)).baseline ∧
      ∀ (sample' : Sample) (now' : Int) (cur' : Float64),
        sample'.lookup name = some cur' → 0 < now' - now →
        (Float64.sub cur' cur).ltZero = false →
        (diffEngine kind sample' now'
            (some (diffEngine kind sample now (some b)).baseline)).emitted.lookup name =
          some (Float64.div (Float64.sub cur' cur) (Float64.ofInt (now' - now))) := by
  refine ⟨?_, hs, rfl, rfl, fun sample' now' cur' hs' hpos hdelta => ?_⟩
  · rw [lookup_emitted]
    by_cases hle : now - b.observedAt ≤ 0 <;>
      simp [emitFor, hs, diffMetric, hk, hb, hle, hlow]
  · have hnle : ¬ now' - now ≤ 0 := by omega
    rw [lookup_emitted]
    simp [emitFor, hs', diffMetric, hk, diffEngine, hs, hnle, hdelta]

/-- Witness of C14: a counter that fell from `100` to `40` emits nothing, the baseline
becomes `40`, and the run ten seconds later with the value `70` emits `3`. -/
theorem diffEngine_reset_absorbed_witness :
    (Float64.sub (Float64.ofNat 40) (Float64.ofNat 100)).ltZero = true ∧
      (diffEngine (fun _ => MetricKind.counter) [("opcounters_insert", Float64.ofNat 40)]
          1060 (some ⟨[("opcounters_insert", Float64.ofNat 100)], 1000⟩)).emitted = [] ∧
      (diffEngine (fun _ => MetricKind.counter) [("opcounters_insert", Float64.ofNat 70)]
          1070 (some ⟨[("opcounters_insert", Float64.ofNat 40)], 1060⟩)).emitted
        = [("opcounters_insert", Float64.ofNat 3)] ∧
      (diffEngine (fun _ => MetricKind.counter) [("opcounters_insert", Float64.ofNat 40)]
          1060 (some ⟨[("opcounters_insert", Float64.ofNat 100)], 1000⟩)).emitted.lookup
          "opcounters_insert" = none ∧
      (diffEngine (fun _ => MetricKind.counter) [("opcounters_insert", Float64.ofNat 40)]
          1060 (some ⟨[("opcounters_insert", Float64.ofNat 100)], 1000⟩)).baseline
        = ⟨[("opcounters_insert", Float64.ofNat 40)], 1060⟩ :=
  have h := diffEngine_reset_absorbed (fun _ => MetricKind.counter)
    [("opcounters_insert", Float64.ofNat 40)] 1060 "opcounters_insert"
    (Float64.ofNat 40) (Float64.ofNat 100)
    ⟨[("opcounters_insert", Float64.ofNat 100)], 1000⟩ rfl rfl rfl (by decide!)
  ⟨by decide!, by decide!, by decide!, h.1, rfl⟩

/-! ## The catalog and the two walks over it: claims C15, C16, C17, C18, C19 -/

/-- C15 as stated fails: the catalog declares `page_faults` with `Diff: false`, so not
every metric named `opcounters_*` or `page_faults` is a counter. -/
theorem page_faults_declared_gauge :
    ({ Name := "page_faults", Label := "Count", Diff := false, Typ := "uint64" } : Metrics)
        ∈ catalogMetrics ∧
      ¬ (∀ m ∈ catalogMetrics,
        (isOpcounter m.Name = true ∨ m.Name = "page_faults") → m.Diff = true) := by
  decide!

/-- C15 amended: in the static MongoDB catalog every `opcounters_*` metric (insert,
query, update, delete, getmore, command) is declared with `Diff: true`, a counter
reported as a rate; the `page_faults` metric is declared with `Diff: false`, a gauge
reported as its raw magnitude. -/
theorem opcounters_declared_counters :
    (∀ m ∈ catalogMetrics, isOpcounter m.Name = true →
      m.Diff = true ∧ m.kind = MetricKind.counter) ∧
      (catalogMetrics.filter (fun m => isOpcounter m.Name)).map (fun m => m.Name) =
        ["opcounters_insert", "opcounters_query", "opcounters_update",
          "opcounters_delete", "opcounters_getmore", "opcounters_command"] ∧
      (∀ m ∈ catalogMetrics, m.Name = "page_faults" →
        m.Diff = false ∧ m.kind = MetricKind.gauge) ∧
      (catalogMetrics.filter (fun m => decide (m.Name = "page_faults"))).length = 1 := by
  decide!

/-- C16: for every status document, the metric names listed across the groups of the
result of `GraphDefinition` are exactly the keys of the result of `parseStatus` on the
same document. -/
theorem GraphDefinition_names_eq_parseStatus_keys :
    (∀ (serverStatus : Doc) (name : String),
      name ∈ listedNames (GraphDefinition (.ok serverStatus)) ↔
        ∃ stat, parseStatus serverStatus = .ok stat ∧ name ∈ stat.map Prod.fst) ∧
      listedNames (GraphDefinition (.ok
          [("opcounters", .doc [("insert", .int 5), ("query", .str "7")]),
            ("mem", .int 3)])) = ["opcounters_insert", "opcounters_query"] ∧
      (parseStatus
          [("opcounters", .doc [("insert", .int 5), ("query", .str "7")]),
            ("mem", .int 3)]).map (fun stat => stat.map Prod.fst)
        = .ok ["opcounters_insert", "opcounters_query"] := by
  refine ⟨fun serverStatus name => ?_, by decide!, by decide!⟩
  unfold listedNames parseStatus
  constructor
  · intro h
    obtain ⟨p, hp, hn⟩ := List.mem_flatMap.mp h
    obtain ⟨m, hm, rfl⟩ := List.mem_map.mp hn
    obtain ⟨v, hv, hr⟩ := (mem_GraphDefinition_ok_iff serverStatus p.1 p.2).mp hp
    obtain ⟨hg, _⟩ := retained_eq_some serverStatus v p.2 hr
    rw [hg] at hm
    obtain ⟨hmv, hres⟩ := List.mem_filter.mp hm
    obtain ⟨val, hval⟩ := (resolves_iff serverStatus m).mp hres
    have hsome := (catalog_names_have_paths (p.1, v) hv m hmv).1
    obtain ⟨path, hpath⟩ := Option.isSome_iff_exists.mp hsome
    have hat : metricPlaceAt m.Name = path := by simp [metricPlaceAt, hpath]
    rw [hat] at hval
    refine ⟨_, rfl, ?_⟩
    have hl : (parseStatusLoop serverStatus).1.lookup m.Name = some val := by
      rw [lookup_parseStatusLoop, hpath]
      exact (resolved_eq_some serverStatus path val).mpr hval
    exact List.mem_map.mpr ⟨(m.Name, val), mem_of_lookup_eq_some _ _ _ hl, rfl⟩
  · rintro ⟨stat, hstat, hmem⟩
    obtain rfl := (Except.ok.inj hstat)
    obtain ⟨q, hq, rfl⟩ := List.mem_map.mp hmem
    have hsome := lookup_isSome_of_mem _ q hq
    obtain ⟨val, hval⟩ := Option.isSome_iff_exists.mp hsome
    rw [lookup_parseStatusLoop] at hval
    cases hpath : metricPlace.lookup q.1 with
    | none => simp [hpath] at hval
    | some path =>
      rw [hpath] at hval
      have hget : getFloatValue serverStatus path = .ok val :=
        (resolved_eq_some serverStatus path val).mp hval
      obtain ⟨p, hp, m, hm, hname⟩ :=
        metricPlace_keys_are_listed (q.1, path) (mem_of_lookup_eq_some _ _ _ hpath)
      have hat : metricPlaceAt m.Name = path := by
        simp only [metricPlaceAt, hname]
        rw [hpath]
        rfl
      have hres : resolves serverStatus m = true :=
        (resolves_iff serverStatus m).mpr ⟨val, by rw [hat]; exact hget⟩
      have hfm : m ∈ p.2.Metrics.filter (resolves serverStatus) :=
        List.mem_filter.mpr ⟨hm, hres⟩
      have hne : p.2.Metrics.filter (resolves serverStatus) ≠ [] :=
        List.ne_nil_of_mem hfm
      have hret : retained serverStatus p.2 =
          some { p.2 with Metrics := p.2.Metrics.filter (resolves serverStatus) } := by
        simp [retained, hne]
      have hin := (mem_GraphDefinition_ok_iff serverStatus p.1 _).mpr ⟨p.2, hp, hret⟩
      exact List.mem_flatMap.mpr ⟨_, hin, List.mem_map.mpr ⟨m, hfm, hname⟩⟩

/-- C17: for every status document and every group that `GraphDefinition` retains, the
group's metric list is the catalog group's list filtered to the metrics that resolve
against the document: a sublist in catalog order whose entries are the catalog's own
(name, label, diff flag, type and scale unchanged); the group's label and unit are
the catalog's. -/
theorem GraphDefinition_group_filtered (serverStatus : Doc) (k : String) (g : Graphs)
    (hg : (k, g) ∈ GraphDefinition (.ok serverStatus)) :
    ∃ v, (k, v) ∈ graphdef ∧
      g.Metrics = v.Metrics.filter (resolves serverStatus) ∧
      g.Metrics.Sublist v.Metrics ∧
      (∀ m ∈ v.Metrics,
        m ∈ g.Metrics ↔
          ∃ val, getFloatValue serverStatus (metricPlaceAt m.Name) = .ok val) ∧
      g.Label = v.Label ∧ g.Unit = v.Unit := by
  obtain ⟨v, hv, hr⟩ := (mem_GraphDefinition_ok_iff serverStatus k g).mp hg
  obtain ⟨rfl, _⟩ := retained_eq_some serverStatus v g hr
  refine ⟨v, hv, rfl, List.filter_sublist _, fun m hm => ?_, rfl, rfl⟩
  simp only [List.mem_filter, hm, true_and]
  exact resolves_iff serverStatus m

/-- Witness of C17: against `{opcounters: {insert: 5, query: "7"}}` the group
`mongodb.opcounters` keeps its first two metrics, in catalog order. -/
theorem GraphDefinition_group_filtered_witness :
    (GraphDefinition (.ok [("opcounters", .doc [("insert", .int 5), ("query", .str "7")])])
        = [("mongodb.opcounters",
            { Label := "MongoDB opcounters", Unit := "integer",
              Metrics := [
                { Name := "opcounters_insert", Label := "Insert", Diff := true,
                  Typ := "uint64" },
                { Name := "opcounters_query", Label := "Query", Diff := true,
                  Typ := "uint64" } ] })]) ∧
      ∃ v, ("mongodb.opcounters", v) ∈ graphdef ∧
        ([{ Name := "opcounters_insert", Label := "Insert", Diff := true, Typ := "uint64" },
          { Name := "opcounters_query", Label := "Query", Diff := true, Typ := "uint64" }]
            : List Metrics) =
          v.Metrics.filter
            (resolves [("opcounters", .doc [("insert", .int 5), ("query", .str "7")])]) ∧
        List.Sublist
          ([{ Name := "opcounters_insert", Label := "Insert", Diff := true, Typ := "uint64" },
            { Name := "opcounters_query", Label := "Query", Diff := true, Typ := "uint64" }]
              : List Metrics) v.Metrics ∧
        (∀ m ∈ v.Metrics,
          m ∈ ([{ Name := "opcounters_insert", Label := "Insert", Diff := true,
                  Typ := "uint64" },
                { Name := "opcounters_query", Label := "Query", Diff := true,
                  Typ := "uint64" }] : List Metrics) ↔
            ∃ val, getFloatValue
              [("opcounters", .doc [("insert", .int 5), ("query", .str "7")])]
              (metricPlaceAt m.Name) = .ok val) ∧
        "MongoDB opcounters" = v.Label ∧ "integer" = v.Unit :=
  ⟨by decide!,
    GraphDefinition_group_filtered
      [("opcounters", .doc [("insert", .int 5), ("query", .str "7")])]
      "mongodb.opcounters"
      { Label := "MongoDB opcounters", Unit := "integer",
        Metrics := [
          { Name := "opcounters_insert", Label := "Insert", Diff := true, Typ := "uint64" },
          { Name := "opcounters_query", Label := "Query", Diff := true, Typ := "uint64" } ] }
      (by decide!)⟩

/-- C18: when fetching the status document fails, `GraphDefinition` returns the static
catalog itself: all twelve groups with all thirty-four metrics. -/
theorem GraphDefinition_fetch_error (e : String) :
    GraphDefinition (.error e) = graphdef ∧
      (GraphDefinition (.error e)).length = 12 ∧
      (listedNames (GraphDefinition (.error e))).length = 34 ∧
      listedNames (GraphDefinition (.error e)) = catalogMetrics.map (fun m => m.Name) := by
  refine ⟨rfl, ?_, ?_, ?_⟩
  · show graphdef.length = 12
    decide!
  · show (listedNames graphdef).length = 34
    decide!
  · show listedNames graphdef = catalogMetrics.map (fun m => m.Name)
    decide!

/-- C19: for every document `getFloatValue` with the empty key path returns `0` and no
error, so a metric whose name has no entry in `metricPlace` passes the test of
`GraphDefinition` on every document; in the shipped tables every metric name of
`graphdef` has a non-empty path in `metricPlace`, and every key of `metricPlace` is
listed by exactly one group of `graphdef`. -/
theorem empty_path_resolves_and_tables_agree :
    (∀ s : Doc, getFloatValue s [] = .ok Float64.zero) ∧
      Float64.zero.natValue? = some 0 ∧
      (∀ (s : Doc) (m : Metrics), metricPlace.lookup m.Name = none →
        metricPlaceAt m.Name = [] ∧ resolves s m = true ∧
          resolvableMetrics s [m] = [m]) ∧
      (∀ p ∈ graphdef, ∀ m ∈ p.2.Metrics,
        ∃ path, metricPlace.lookup m.Name = some path ∧ path ≠ []) ∧
      (∀ kv ∈ metricPlace, groupsListing kv.1 = 1) := by
  refine ⟨fun s => rfl, rfl, fun s m hm => ?_, ?_, metricPlace_keys_in_one_group⟩
  · have hat : metricPlaceAt m.Name = [] := by simp [metricPlaceAt, hm]
    have hres : resolves s m = true := by
      unfold resolves
      rw [hat]
      rfl
    refine ⟨hat, hres, ?_⟩
    rw [resolvableMetrics_eq_filter]
    simp [List.filter_cons, hres]
  · decide!

end MackerelPlugins
